import Mathlib

/-!
Verification development for the `assistant-recherche-web` repository.

Python strings are modelled as `List Char` (`Str`); Python `len` is list
length, which matches Python's code-point count.  Every network or browser
interaction (HTTP requests, Playwright page loads, the OpenAI client,
ChromaDB) is external to the repository and is modelled as an explicit input
to the functions that consume it (an `Option`/`Except` value or a function
argument), while the repository's own control flow and data manipulation are
translated faithfully from `src/modules/scraper - chunk normal.py`,
`src/modules/vector_store.py` and `src/app.py`.
-/

namespace ARW

/-- Python strings as lists of characters. -/
abbrev Str := List Char

/-- The whitespace class of Python's regex `\s` and of `str.strip` /
`str.split` (ASCII part, which is all the code manipulates). -/
def isPySpace (c : Char) : Bool :=
  c = ' ' || c = '\t' || c = '\n' || c = '\r' || c = '\x0b' || c = '\x0c'

/-- Scanner for `re.sub(r'\s+', ' ', text)`: the flag is true while inside
a whitespace run whose first character was already replaced by a single
space (the rest of the run is dropped). -/
def collapseAux : Bool → Str → Str
  | _, [] => []
  | afterSpace, c :: rest =>
    if isPySpace c then
      if afterSpace then collapseAux true rest
      else ' ' :: collapseAux true rest
    else c :: collapseAux false rest

/-- Model of `re.sub(r'\s+', ' ', text)`: every maximal run of whitespace
characters is replaced by a single space. -/
def collapseWs (s : Str) : Str :=
  collapseAux false s

/-- Model of Python `str.strip()`: drop leading and trailing whitespace. -/
def pstrip (s : Str) : Str :=
  List.rdropWhile isPySpace (s.dropWhile isPySpace)

/-- The normalization performed at the start of `chunk_text`:
`re.sub(r'\s+', ' ', text).strip()`. -/
def normalizeWs (s : Str) : Str :=
  pstrip (collapseWs s)

/-- Model of Python `text.split('\n\n')` (non-overlapping, leftmost-first
matches of the two-character separator; `''.split(sep) = ['']`).  The first
argument accumulates the current piece in reverse. -/
def pySplitPP : Str → Str → List Str
  | acc, [] => [acc.reverse]
  | acc, '\n' :: '\n' :: rest => acc.reverse :: pySplitPP [] rest
  | acc, c :: rest => pySplitPP (c :: acc) rest

/-- `text.split('\n\n')` as used by `chunk_text` to form paragraphs. -/
def pySplitParas (s : Str) : List Str :=
  pySplitPP [] s

/-- Lookbehind test of the sentence-splitting regex `(?<=[.!?])\s+`. -/
def prevIsPunct : Option Char → Bool
  | Option.some c => c = '.' || c = '!' || c = '?'
  | Option.none => false

/-- Model of `re.split(r'(?<=[.!?])\s+', paragraph)`.  The `Bool` is true
while the scanner is consuming a maximal whitespace run that started a
separator match; `Option Char` is the previously scanned character (the
lookbehind); the `Str` accumulates the current piece in reverse. -/
def sentAux : Bool → Option Char → Str → Str → List Str
  | _, _, acc, [] => [acc.reverse]
  | true, _, acc, c :: rest =>
    if isPySpace c then sentAux true Option.none acc rest
    else sentAux false (Option.some c) (c :: acc) rest
  | false, prev, acc, c :: rest =>
    if isPySpace c ∧ prevIsPunct prev then acc.reverse :: sentAux true Option.none [] rest
    else sentAux false (Option.some c) (c :: acc) rest

/-- `re.split(r'(?<=[.!?])\s+', paragraph)` applied to a paragraph. -/
def sentSplit (p : Str) : List Str :=
  sentAux false Option.none [] p

/-- The inner sentence loop of `chunk_text` (lines 257-263 of the scraper):
greedily pack sentences into `current_chunk`, flushing the stripped chunk
when the next sentence does not fit.  Returns the final
`(current_chunk, chunks)` state. -/
def sentLoop (csz : Nat) : List Str → Str → List Str → Str × List Str
  | [], cur, chunks => (cur, chunks)
  | s :: rest, cur, chunks =>
    if cur.length + s.length ≤ csz then
      sentLoop csz rest (cur ++ ' ' :: s) chunks
    else if cur ≠ [] then
      sentLoop csz rest s (chunks ++ [pstrip cur])
    else
      sentLoop csz rest s chunks

/-- The paragraph loop of `chunk_text` (lines 253-270): a paragraph longer
than `2 * chunk_size` is split into sentences and fed to the sentence loop,
otherwise it is packed whole. -/
def paraLoop (csz : Nat) : List Str → Str → List Str → Str × List Str
  | [], cur, chunks => (cur, chunks)
  | p :: rest, cur, chunks =>
    if 2 * csz < p.length then
      paraLoop csz rest (sentLoop csz (sentSplit p) cur chunks).1
        (sentLoop csz (sentSplit p) cur chunks).2
    else if cur.length + p.length ≤ csz then
      paraLoop csz rest (cur ++ ' ' :: p) chunks
    else if cur ≠ [] then
      paraLoop csz rest p (chunks ++ [pstrip cur])
    else
      paraLoop csz rest p chunks

/-- The trailing `if current_chunk: chunks.append(current_chunk.strip())`
of `chunk_text` (lines 272-274). -/
def finalizeChunks : Str × List Str → List Str
  | (cur, chunks) => if cur ≠ [] then chunks ++ [pstrip cur] else chunks

/-- `SiteContentScraper.chunk_text` (scraper lines 239-276), with
`self.chunk_size` passed explicitly.  `if not text: return []` is the empty
check; then the text is whitespace-normalized, split into paragraphs on
`'\n\n'`, and packed by the paragraph/sentence loops. -/
def chunk_text (csz : Nat) (text : Str) : List Str :=
  if text = [] then []
  else
    finalizeChunks (paraLoop csz (pySplitParas (normalizeWs text)) [] [])

/-- Modelled from the claim C10's words: the simplified chunker that treats
the entire normalized text as a single paragraph (no `'\n\n'` split). -/
def chunk_text_single (csz : Nat) (text : Str) : List Str :=
  if text = [] then []
  else
    finalizeChunks (paraLoop csz [normalizeWs text] [] [])

/-- Join passages with single spaces; the reassembly used to state the
concatenation property of `chunk_text`. -/
def joinSp : List Str → Str
  | [] => []
  | [a] => a
  | a :: rest => a ++ ' ' :: joinSp rest

/-- Glue two strings with a single space, omitted when either is empty. -/
def glueSp (a b : Str) : Str :=
  if a = [] then b else if b = [] then a else a ++ ' ' :: b

/-- No two adjacent whitespace characters (true of normalized text). -/
def spacesAreSingle : Str → Bool
  | [] => true
  | c :: rest =>
    (match rest.head? with
     | Option.some d => !(isPySpace c && isPySpace d)
     | Option.none => true) && spacesAreSingle rest

/-- A well-formed passage piece: nonempty with no leading or trailing
whitespace (sentences of normalized text have this shape). -/
def WfPiece (w : Str) : Prop :=
  w ≠ [] ∧ (∀ a, w.head? = Option.some a → isPySpace a = false)
    ∧ (∀ a, w.getLast? = Option.some a → isPySpace a = false)

/-- Invariant of `current_chunk` during the sentence loop: empty, or a
well-formed piece optionally carrying the leading space the `+= " " +`
concatenation introduced, short enough or drawn whole from the ambient
sentence list `S`. -/
def CurInv (csz : Nat) (S : List Str) (cur : Str) : Prop :=
  cur = [] ∨ ∃ w, WfPiece w ∧ (cur = w ∨ cur = ' ' :: w)
    ∧ (cur.length ≤ csz + 1 ∨ w ∈ S)

/-- Invariant of the accumulated chunk list: every chunk is nonempty and
either within the doubled size bound or a whole member of `S`. -/
def ChOK (csz : Nat) (S : List Str) (chunks : List Str) : Prop :=
  ∀ ch ∈ chunks, ch ≠ [] ∧ (ch.length ≤ 2 * csz ∨ ch ∈ S)

/-! ## Model of `xmltodict` values and the Python operations used on them -/

/-- The values `xmltodict.parse` produces: strings, mappings (insertion
ordered), lists, and `None` (for empty elements). -/
inductive PyVal where
  | str : Str → PyVal
  | dict : List (Str × PyVal) → PyVal
  | list : List PyVal → PyVal
  | null : PyVal

/-- First-match association-list lookup, as Python dict indexing. -/
def pyLookup : List (Str × PyVal) → Str → Option PyVal
  | [], _ => Option.none
  | (k2, v) :: rest, k => if k2 = k then Option.some v else pyLookup rest k

/-- Python `v[key]` with a string key: succeeds only on a mapping holding the
key; raises (`Except.error`) on a missing key, a string, a list or `None`. -/
def pySubscr : PyVal → Str → Except Unit PyVal
  | PyVal.dict kvs, k =>
    match pyLookup kvs k with
    | Option.some v => Except.ok v
    | Option.none => Except.error ()
  | _, _ => Except.error ()

/-- Substring test, as Python `key in somestring`. -/
def strSub (needle : Str) : Str → Bool
  | [] => needle.isEmpty
  | c :: rest => needle.isPrefixOf (c :: rest) || strSub needle rest

/-- Python `key in v`: key test on a mapping, substring test on a string,
element test on a list; raises on `None`. -/
def pyContains : PyVal → Str → Except Unit Bool
  | PyVal.dict kvs, k => Except.ok (pyLookup kvs k).isSome
  | PyVal.str s, k => Except.ok (strSub k s)
  | PyVal.list xs, k =>
    Except.ok (xs.any fun v => match v with | PyVal.str s2 => s2 == k | _ => false)
  | PyVal.null, _ => Except.error ()

/-- Python iteration: a mapping yields its keys, a list its elements, a
string its characters; `None` is not iterable. -/
def pyIter : PyVal → Except Unit (List PyVal)
  | PyVal.dict kvs => Except.ok (kvs.map fun kv => PyVal.str kv.1)
  | PyVal.list xs => Except.ok xs
  | PyVal.str s => Except.ok (s.map fun c => PyVal.str [c])
  | PyVal.null => Except.error ()

/-- Python `isinstance(v, list)`. -/
def pyIsList : PyVal → Bool
  | PyVal.list _ => true
  | _ => false

/-- The underlying list of a `PyVal.list` (only used after `pyIsList`). -/
def pyAsList : PyVal → List PyVal
  | PyVal.list xs => xs
  | _ => []

/-! ## Model of `SiteContentScraper.fetch_sitemap` (scraper lines 102-182) -/

/-- Result of `xmltodict.parse` on fetched sitemap content: a value, or a
raised parsing exception. -/
inductive ParseOutcome where
  | ok : PyVal → ParseOutcome
  | err : ParseOutcome

/-- How a run of `fetch_sitemap` ends: returning with `self.pages` set from
sitemap data (the returned boolean is `pages ≠ []`), delegating to
`discover_pages_via_crawling`, or the implicit `return None` reached when a
200-status sitemap parses but has no `sitemapindex`/`urlset` content. -/
inductive DiscoveryOutcome where
  | sitemapPages : List Str → DiscoveryOutcome
  | crawl : DiscoveryOutcome
  | noResult : DiscoveryOutcome
deriving DecidableEq

/-- The `for url in urls` append loop (scraper lines 138-143 and 159-164):
keep a URL when it starts with `base_url` and is not already collected, and
break out of this loop once `max_pages` is reached.  The boolean records
whether an exception was raised mid-loop (a `url` entry without a usable
`'loc'` string), which the caller's `try` decides how to handle. -/
def addUrlEntries (base : Str) (maxPages : Nat) : List PyVal → List Str → List Str × Bool
  | [], pages => (pages, false)
  | entry :: rest, pages =>
    match pySubscr entry ("loc".data) with
    | Except.error _ => (pages, true)
    | Except.ok (PyVal.str loc) =>
      if base.isPrefixOf loc ∧ loc ∉ pages then
        if maxPages ≤ (pages ++ [loc]).length then (pages ++ [loc], false)
        else addUrlEntries base maxPages rest (pages ++ [loc])
      else addUrlEntries base maxPages rest pages
    | Except.ok _ => (pages, true)

/-- Processing of one fetched sub-sitemap inside the per-entry `try`
(scraper lines 129-143): extract `urlset.url`, wrap a single mapping into a
one-element list, and run the append loop.  Any exception here is caught by
the per-entry `except`, keeping the pages appended so far. -/
def processSubSitemap (base : Str) (maxPages : Nat) (pages : List Str) (sub : PyVal) : List Str :=
  match pyContains sub ("urlset".data) with
  | Except.error _ => pages
  | Except.ok false => pages
  | Except.ok true =>
    match pySubscr sub ("urlset".data) with
    | Except.error _ => pages
    | Except.ok us =>
      match pyContains us ("url".data) with
      | Except.error _ => pages
      | Except.ok false => pages
      | Except.ok true =>
        match pySubscr us ("url".data) with
        | Except.error _ => pages
        | Except.ok urlsv =>
          (addUrlEntries base maxPages
            (if pyIsList urlsv then pyAsList urlsv else [urlsv]) pages).1

/-- The `for sitemap_entry in sitemap['sitemapindex']['sitemap']` loop
(scraper lines 120-145).  `loc = sitemap_entry['loc']` is evaluated outside
the per-entry `try`, so its failure propagates to the outer handler (crawl
fallback); the fetch+parse of each sub-sitemap is abstracted by `subFetch`
(`Option.none` models any failure caught by the per-entry `except`). -/
def processEntries (base : Str) (maxPages : Nat) (subFetch : Str → Option PyVal) :
    List PyVal → List Str → DiscoveryOutcome
  | [], pages => DiscoveryOutcome.sitemapPages pages
  | e :: rest, pages =>
    match pySubscr e ("loc".data) with
    | Except.error _ => DiscoveryOutcome.crawl
    | Except.ok locv =>
      match locv with
      | PyVal.str loc =>
        match subFetch loc with
        | Option.none => processEntries base maxPages subFetch rest pages
        | Option.some sub =>
          processEntries base maxPages subFetch rest (processSubSitemap base maxPages pages sub)
      | _ => processEntries base maxPages subFetch rest pages

/-- The tail of the top-level `urlset` branch of `fetch_sitemap` (scraper
lines 159-168): run the append loop from the empty collection; an exception
mid-loop is caught at line 169 (crawl fallback), otherwise the collected
pages are returned. -/
def fetchUrlsetResult (base : Str) (maxPages : Nat) (urls : List PyVal) : DiscoveryOutcome :=
  match addUrlEntries base maxPages urls [] with
  | (_, true) => DiscoveryOutcome.crawl
  | (pages, false) => DiscoveryOutcome.sitemapPages pages

/-- `SiteContentScraper.fetch_sitemap` (scraper lines 102-182), starting
from `self.pages = []`.  `top` models the `requests.get` of
`{base_url}/sitemap.xml`: `Option.none` is a raised request exception
(outer `except`, line 178), otherwise the status code and the parse result
of the body.  Non-200 statuses and parse errors fall back to crawling; a
parsed document is dispatched on `'sitemapindex' in sitemap', with any
exception inside the parsing block caught at line 169 (crawl fallback), and
the no-`urlset` case falling through to the implicit `return None`. -/
def fetch_sitemap (base : Str) (maxPages : Nat) (top : Option (Nat × ParseOutcome))
    (subFetch : Str → Option PyVal) : DiscoveryOutcome :=
  match top with
  | Option.none => DiscoveryOutcome.crawl
  | Option.some (status, po) =>
    if status = 200 then
      match po with
      | ParseOutcome.err => DiscoveryOutcome.crawl
      | ParseOutcome.ok sitemap =>
        match pyContains sitemap ("sitemapindex".data) with
        | Except.error _ => DiscoveryOutcome.crawl
        | Except.ok true =>
          match pySubscr sitemap ("sitemapindex".data) with
          | Except.error _ => DiscoveryOutcome.crawl
          | Except.ok idx =>
            match pySubscr idx ("sitemap".data) with
            | Except.error _ => DiscoveryOutcome.crawl
            | Except.ok entriesV =>
              match pyIter entriesV with
              | Except.error _ => DiscoveryOutcome.crawl
              | Except.ok entries => processEntries base maxPages subFetch entries []
        | Except.ok false =>
          match pyContains sitemap ("urlset".data) with
          | Except.error _ => DiscoveryOutcome.crawl
          | Except.ok false => DiscoveryOutcome.noResult
          | Except.ok true =>
            match pySubscr sitemap ("urlset".data) with
            | Except.error _ => DiscoveryOutcome.crawl
            | Except.ok us =>
              match pyContains us ("url".data) with
              | Except.error _ => DiscoveryOutcome.crawl
              | Except.ok false => DiscoveryOutcome.noResult
              | Except.ok true =>
                match pySubscr us ("url".data) with
                | Except.error _ => DiscoveryOutcome.crawl
                | Except.ok urlsv =>
                  fetchUrlsetResult base maxPages
                    (if pyIsList urlsv then pyAsList urlsv else [urlsv])
    else DiscoveryOutcome.crawl

/-- Number of entries the `sitemapindex` loop of `fetch_sitemap` iterates
over (0 when the run does not take that path); used to state the amended
cardinality bound of claim C1. -/
def numSubSitemaps (top : Option (Nat × ParseOutcome)) : Nat :=
  match top with
  | Option.some (status, ParseOutcome.ok sitemap) =>
    if status = 200 then
      match pyContains sitemap ("sitemapindex".data) with
      | Except.ok true =>
        match pySubscr sitemap ("sitemapindex".data) with
        | Except.ok idx =>
          match pySubscr idx ("sitemap".data) with
          | Except.ok entriesV =>
            match pyIter entriesV with
            | Except.ok entries => entries.length
            | Except.error _ => 0
          | Except.error _ => 0
        | Except.error _ => 0
      | _ => 0
    else 0
  | _ => 0

/-! ## Model of `SiteContentScraper.discover_pages_via_crawling`
(scraper lines 184-237) -/

/-- The `for link in links` loop (scraper lines 223-229): a link not yet
visited that starts with `base_url` is added to `visited`, `to_visit` and
`self.pages`, breaking once `max_pages` pages are collected.  State is
`(visited, to_visit, pages)`. -/
def addLinks (base : Str) (maxPages : Nat) :
    List Str → List Str → List Str → List Str → List Str × List Str × List Str
  | [], visited, toVisit, pages => (visited, toVisit, pages)
  | l :: ls, visited, toVisit, pages =>
    if l ∉ visited ∧ base.isPrefixOf l then
      if maxPages ≤ (pages ++ [l]).length then (visited ++ [l], toVisit ++ [l], pages ++ [l])
      else addLinks base maxPages ls (visited ++ [l]) (toVisit ++ [l]) (pages ++ [l])
    else addLinks base maxPages ls visited toVisit pages

/-- The `while to_visit and len(visited) < max_pages` loop (scraper lines
197-231).  `links u` models the Playwright page visit and link extraction
for `u` (`Option.none` is a raised navigation error, caught and skipped);
`fuel` bounds the number of iterations (the claims hold for every fuel). -/
def crawlLoop (base : Str) (maxPages : Nat) (links : Str → Option (List Str)) :
    Nat → List Str → List Str → List Str → List Str
  | 0, _, _, pages => pages
  | Nat.succ fuel, visited, toVisit, pages =>
    match toVisit with
    | [] => pages
    | current :: rest =>
      if visited.length < maxPages then
        match links current with
        | Option.none => crawlLoop base maxPages links fuel visited rest pages
        | Option.some ls =>
          crawlLoop base maxPages links fuel
            (addLinks base maxPages ls visited rest pages).1
            (addLinks base maxPages ls visited rest pages).2.1
            (addLinks base maxPages ls visited rest pages).2.2
      else pages

/-- `SiteContentScraper.discover_pages_via_crawling` called (as at every
call site) with `start_url = self.base_url`: `self.pages`, `visited` and
`to_visit` all start as `[base_url]`, and the final `self.pages` is
returned. -/
def discover_pages_via_crawling (base : Str) (maxPages : Nat)
    (links : Str → Option (List Str)) (fuel : Nat) : List Str :=
  crawlLoop base maxPages links fuel [base] [base] [base]

/-! ## Model of `SiteContentScraper.scrape_all_pages` (scraper lines 383-428) -/

/-- One scraped page as assembled by `scrape_page` (scraper lines 361-373). -/
structure PageData where
  purl : Str
  ptitle : Str
  pcontent : Str
  pchunks : List Str
  chunk_count : Nat
deriving DecidableEq

/-- The master result dictionary assembled by `scrape_all_pages` (scraper
lines 416-423); the timestamp is I/O and omitted. -/
structure CrawlResult where
  domain : Str
  total_pages : Nat
  total_chunks : Nat
  pages : List PageData
deriving DecidableEq

/-- The discovery phase as `scrape_all_pages` sees it: the truthiness of the
value returned by `fetch_sitemap` (with `None` falsy) together with the
resulting `self.pages`. -/
def discoveryRun (base : Str) (maxPages : Nat) (top : Option (Nat × ParseOutcome))
    (subFetch : Str → Option PyVal) (links : Str → Option (List Str)) (fuel : Nat) :
    Bool × List Str :=
  match fetch_sitemap base maxPages top subFetch with
  | DiscoveryOutcome.sitemapPages ps => (decide (ps ≠ []), ps)
  | DiscoveryOutcome.crawl =>
    let ps := discover_pages_via_crawling base maxPages links fuel
    (decide (ps ≠ []), ps)
  | DiscoveryOutcome.noResult => (false, [])

/-- `SiteContentScraper.scrape_all_pages` (scraper lines 383-428).
`fetchPage u` models `scrape_page` for URL `u` (`Option.none` is the `except`
branch of lines 378-381 returning `None`); failed fetches are filtered out
(line 411) and the master dictionary is assembled from the successes. -/
def scrape_all_pages (base : Str) (maxPages : Nat) (top : Option (Nat × ParseOutcome))
    (subFetch : Str → Option PyVal) (links : Str → Option (List Str)) (fuel : Nat)
    (fetchPage : Str → Option PageData) : Option CrawlResult :=
  let disc := discoveryRun base maxPages top subFetch links fuel
  if disc.1 = false then Option.none
  else
    let pages := if maxPages < disc.2.length then disc.2.take maxPages else disc.2
    let ok := (pages.map fetchPage).filterMap id
    Option.some
      { domain := base
        total_pages := ok.length
        total_chunks := (ok.map PageData.chunk_count).sum
        pages := ok }

/-! ## Model of `VectorStore.load_from_dict` (vector_store.py lines 92-151) -/

/-- One page of the ingested crawl dictionary, with the fields
`load_from_dict` reads (`page.get('url'/'title'/'content'/'chunks')`). -/
structure ScrapedPage where
  url : String
  title : String
  content : String
  chunks : List String
deriving DecidableEq

/-- The metadata attached to one inserted document (vector_store lines
112-117 and 124-128). -/
structure DocMeta where
  murl : String
  mtitle : String
  chunk_id : Option Nat
  is_chunk : Bool
deriving DecidableEq

/-- One document handed to `collection.add`: identifier, text, metadata. -/
structure DocEntry where
  did : String
  document : String
  meta : DocMeta
deriving DecidableEq

/-- The identifier `f"doc_{doc_id_counter}"` (vector_store lines 109, 121). -/
def docId (n : Nat) : String :=
  "doc_" ++ toString n

/-- The inner `for j, chunk in enumerate(chunks)` loop (vector_store lines
108-118): one document per precomputed chunk, tagged `is_chunk=True` with
its ordinal `chunk_id`, consuming one counter value each. -/
def addChunkDocs (u t : String) : List String → Nat → Nat → List DocEntry → List DocEntry × Nat
  | [], _, n, acc => (acc, n)
  | c :: cs2, j, n, acc =>
    addChunkDocs u t cs2 (j + 1) (n + 1)
      (acc ++ [{ did := docId n, document := c
                 meta := { murl := u, mtitle := t, chunk_id := Option.some j, is_chunk := true } }])

/-- The `for i, page in enumerate(data.get('pages', []))` loop of
`load_from_dict` (vector_store lines 102-129): pages whose content exceeds
5000 characters contribute their precomputed chunks, others a single
whole-content document tagged `is_chunk=False`. -/
def load_from_dict_loop : List ScrapedPage → Nat → List DocEntry → List DocEntry × Nat
  | [], n, acc => (acc, n)
  | p :: rest, n, acc =>
    if 5000 < p.content.length then
      let st := addChunkDocs p.url p.title p.chunks 0 n acc
      load_from_dict_loop rest st.2 st.1
    else
      load_from_dict_loop rest (n + 1)
        (acc ++ [{ did := docId n, document := p.content
                   meta := { murl := p.url, mtitle := p.title
                             chunk_id := Option.none, is_chunk := false } }])

/-- `VectorStore.load_from_dict`: the complete, ordered list of documents
inserted into the collection (the batches of 20 of lines 131-144 partition
this list in order and do not change it). -/
def load_from_dict (pages : List ScrapedPage) : List DocEntry :=
  (load_from_dict_loop pages 0 []).1

/-- Declarative per-page description of the documents `load_from_dict`
inserts, used to state claim C4: the chunk documents with ordinals from
`j`, written as its own recursion. -/
def chunkSpecs (u t : String) : List String → Nat → List (String × DocMeta)
  | [], _ => []
  | c :: cs2, j =>
    (c, { murl := u, mtitle := t, chunk_id := Option.some j, is_chunk := true })
      :: chunkSpecs u t cs2 (j + 1)

/-- Declarative per-page description of the inserted documents: each chunk
individually for large pages, the whole content once otherwise. -/
def pageDocsSpec (p : ScrapedPage) : List (String × DocMeta) :=
  if 5000 < p.content.length then chunkSpecs p.url p.title p.chunks 0
  else [(p.content, { murl := p.url, mtitle := p.title
                      chunk_id := Option.none, is_chunk := false })]

/-- Documents built from a list of `(text, metadata)` specifications with
identifiers counting up from `n`. -/
def docsFrom (n : Nat) : List (String × DocMeta) → List DocEntry
  | [] => []
  | s :: rest => { did := docId n, document := s.1, meta := s.2 } :: docsFrom (n + 1) rest

/-! ## Model of `VectorStore.rag_query` (vector_store.py lines 153-197) and
the search display of `app.py` (lines 241-276) -/

/-- One row of the ChromaDB query result consumed by `rag_query` (document
text, the `url`/`title` metadata entries, and the distance).  Distances are
only copied and compared, never computed with, so they are modelled as
rationals. -/
structure ChromaRow where
  document : String
  murl : Option String
  mtitle : Option String
  distance : ℚ
deriving DecidableEq

/-- One entry of the `sources` list built by `rag_query` (lines 165-172). -/
structure RagSource where
  content : String
  url : String
  title : String
  similarity : ℚ
deriving DecidableEq

/-- The result dictionary of `rag_query`. -/
structure QueryResponse where
  answer : String
  sources : List RagSource
deriving DecidableEq

/-- The `sources` list (vector_store lines 165-172): one source per result
row, in row order, with defaults for missing metadata; the distance is
copied when the result has a `'distances'` key, else `0.0`. -/
def mkSources (rows : List ChromaRow) (hasDistances : Bool) : List RagSource :=
  rows.map fun r =>
    { content := r.document, url := r.murl.getD ""
      title := r.mtitle.getD "Sans titre"
      similarity := if hasDistances then r.distance else 0 }

/-- The context string of line 175. -/
def buildContext (sources : List RagSource) : String :=
  String.intercalate "\n\n"
    ((List.range sources.length).zip sources |>.map fun p =>
      "Source " ++ toString (p.1 + 1) ++ ": " ++ p.2.content)

/-- The error result of the `except` branch (vector_store lines 191-197). -/
def errAnswer (e : String) : String :=
  "Désolé, une erreur s\x27est produite lors du traitement de votre requête: " ++ e

/-- `VectorStore.rag_query` (lines 153-197).  `queryCall n` models
`self.collection.query(..., n_results=n)` (rows plus whether the result has
a `'distances'` key; `Except.error` is a raised exception, as is any
embedding failure inside the call), `complete` models the OpenAI chat
completion on the built context.  The `threshold` parameter is accepted and,
as in the source, never used. -/
def rag_query (queryCall : Nat → Except String (List ChromaRow × Bool))
    (complete : String → Except String String)
    (n_results : Nat) (threshold : ℚ) : QueryResponse :=
  match queryCall n_results with
  | Except.error e => { answer := errAnswer e, sources := [] }
  | Except.ok (rows, hasD) =>
    match complete (buildContext (mkSources rows hasD)) with
    | Except.error e => { answer := errAnswer e, sources := [] }
    | Except.ok ans => { answer := ans, sources := mkSources rows hasD }

/-- The sources the search button handler displays (app.py line 266):
`response["sources"][:3]`, with no similarity filtering anywhere in the
handler. -/
def displaySources (resp : QueryResponse) : List RagSource :=
  resp.sources.take 3

/-! ## Concrete fixtures used by counterexamples and witnesses -/

/-- A site base URL. -/
def exBase : Str := "http://s".data

/-- Sub-sitemap fetcher: two sub-sitemaps `m1` and `m2` holding one page
each. -/
def exSub : Str → Option PyVal := fun loc =>
  if loc = ("http://s/m1".data) then
    Option.some (PyVal.dict [("urlset".data, PyVal.dict [("url".data,
      PyVal.dict [("loc".data, PyVal.str ("http://s/a".data))])])])
  else if loc = ("http://s/m2".data) then
    Option.some (PyVal.dict [("urlset".data, PyVal.dict [("url".data,
      PyVal.dict [("loc".data, PyVal.str ("http://s/b".data))])])])
  else Option.none

/-- A sitemap index with a single child `<sitemap>`, which `xmltodict`
parses as a mapping rather than a list. -/
def exSingleIdx : PyVal :=
  PyVal.dict [("sitemapindex".data, PyVal.dict [("sitemap".data,
    PyVal.dict [("loc".data, PyVal.str ("http://s/m1".data))])])]

/-- A sitemap index listing the sub-sitemap `m1` twice (several children,
parsed as a list; same URL set as `exSingleIdx`). -/
def exMultiIdxSame : PyVal :=
  PyVal.dict [("sitemapindex".data, PyVal.dict [("sitemap".data,
    PyVal.list [PyVal.dict [("loc".data, PyVal.str ("http://s/m1".data))],
                PyVal.dict [("loc".data, PyVal.str ("http://s/m1".data))]])])]

/-- A sitemap index listing the two sub-sitemaps `m1` and `m2`. -/
def exMultiIdxTwo : PyVal :=
  PyVal.dict [("sitemapindex".data, PyVal.dict [("sitemap".data,
    PyVal.list [PyVal.dict [("loc".data, PyVal.str ("http://s/m1".data))],
                PyVal.dict [("loc".data, PyVal.str ("http://s/m2".data))]])])]

/-- Well-formed XML with neither `sitemapindex` nor `urlset`. -/
def exNoKeys : PyVal :=
  PyVal.dict [("html".data, PyVal.null)]

/-- A plain sitemap with a single `<url>` entry (parsed as a mapping). -/
def exUrlsetSingle : PyVal :=
  PyVal.dict [("urlset".data, PyVal.dict [("url".data,
    PyVal.dict [("loc".data, PyVal.str ("http://s/x".data))])])]

/-- A link extractor that finds no links on any page. -/
def exNoLinks : Str → Option (List Str) := fun _ => Option.some []

/-- A ChromaDB result row whose distance (0.1) lies below the app's default
threshold slider value (0.4). -/
def exRow : ChromaRow :=
  { document := "doc", murl := Option.some "u", mtitle := Option.some "t", distance := 1/10 }

/-- A query call returning the single row `exRow` with distances present. -/
def exQueryCall : Nat → Except String (List ChromaRow × Bool) := fun _ =>
  Except.ok ([exRow], true)

/-- A completion call that always answers. -/
def exComplete : String → Except String String := fun _ => Except.ok "ans"

/-! # Theorems -/

/-! ## Claim C4: `load_from_dict` document layout and identifiers -/

theorem docsFrom_append (a b : List (String × DocMeta)) :
    ∀ n, docsFrom n (a ++ b) = docsFrom n a ++ docsFrom (n + a.length) b := by
  induction a with
  | nil => intro n; simp [docsFrom]
  | cons s rest ih =>
    intro n
    simp only [List.cons_append, docsFrom, List.append_eq, ih (n + 1), List.length_cons]
    have h3 : n + (rest.length + 1) = n + 1 + rest.length := by omega
    rw [h3]

theorem docsFrom_length (specs : List (String × DocMeta)) :
    ∀ n, (docsFrom n specs).length = specs.length := by
  induction specs with
  | nil => intro n; simp [docsFrom]
  | cons s rest ih => intro n; simp [docsFrom, ih]

theorem chunkSpecs_length (u t : String) (cs : List String) :
    ∀ j, (chunkSpecs u t cs j).length = cs.length := by
  induction cs with
  | nil => intro j; simp [chunkSpecs]
  | cons c cs2 ih => intro j; simp [chunkSpecs, ih]

theorem addChunkDocs_spec (u t : String) (cs : List String) :
    ∀ j n acc, addChunkDocs u t cs j n acc =
      (acc ++ docsFrom n (chunkSpecs u t cs j), n + cs.length) := by
  induction cs with
  | nil => intro j n acc; simp [addChunkDocs, chunkSpecs, docsFrom]
  | cons c cs2 ih =>
    intro j n acc
    simp only [addChunkDocs, ih, chunkSpecs, docsFrom, List.append_assoc,
      List.singleton_append, List.length_cons]
    have h3 : n + 1 + cs2.length = n + (cs2.length + 1) := by omega
    rw [h3]

theorem load_from_dict_loop_spec (pages : List ScrapedPage) :
    ∀ n acc, load_from_dict_loop pages n acc =
      (acc ++ docsFrom n (pages.flatMap pageDocsSpec),
        n + (pages.flatMap pageDocsSpec).length) := by
  induction pages with
  | nil => intro n acc; simp [load_from_dict_loop, docsFrom]
  | cons p rest ih =>
    intro n acc
    by_cases h : 5000 < p.content.length
    · simp only [load_from_dict_loop, if_pos h, addChunkDocs_spec, ih,
        List.flatMap_cons, pageDocsSpec, if_pos h, docsFrom_append, chunkSpecs_length,
        List.append_assoc, List.length_append, Prod.mk.injEq]
      exact ⟨trivial, by omega⟩
    · simp only [load_from_dict_loop, if_neg h, ih, List.flatMap_cons, pageDocsSpec,
        if_neg h, docsFrom_append, List.append_assoc, List.length_append,
        docsFrom, List.singleton_append, List.length_cons, List.length_nil,
        Prod.mk.injEq]
      exact ⟨trivial, by omega⟩

theorem docsFrom_map_doc (specs : List (String × DocMeta)) :
    ∀ n, (docsFrom n specs).map (fun d => (d.document, d.meta)) = specs := by
  induction specs with
  | nil => intro n; simp [docsFrom]
  | cons s rest ih => intro n; simp [docsFrom, ih]

theorem docsFrom_map_did (specs : List (String × DocMeta)) :
    ∀ n, (docsFrom n specs).map DocEntry.did =
      (List.range specs.length).map (fun k => docId (n + k)) := by
  induction specs with
  | nil => intro n; simp [docsFrom]
  | cons s rest ih =>
    intro n
    simp only [docsFrom, List.map_cons, ih (n + 1), List.length_cons,
      List.range_succ_eq_map, List.map_map]
    refine congrArg₂ _ (by simp) (List.map_congr_left ?_)
    intro k _
    simp only [Function.comp_apply]
    exact congrArg docId (by omega)

/-- Claim C4 (confirmed): `load_from_dict` inserts, in strict page-then-chunk
iteration order, one document per precomputed passage (tagged
`is_chunk = true` with ordinal `chunk_id` 0..n-1) for each page whose content
exceeds 5000 characters, and exactly one whole-content document (tagged
`is_chunk = false`) for each page at or under the threshold; identifiers are
`doc_0, doc_1, ...` assigned monotonically in that iteration order. -/
theorem load_from_dict_spec (pages : List ScrapedPage) :
    (load_from_dict pages).map (fun d => (d.document, d.meta)) = pages.flatMap pageDocsSpec
    ∧ (load_from_dict pages).map DocEntry.did =
        (List.range (load_from_dict pages).length).map docId := by
  have h := load_from_dict_loop_spec pages 0 []
  have hd : load_from_dict pages = docsFrom 0 (pages.flatMap pageDocsSpec) := by
    simp [load_from_dict, h]
  constructor
  · rw [hd, docsFrom_map_doc]
  · rw [hd, docsFrom_map_did, docsFrom_length]
    exact List.map_congr_left fun k _ => congrArg docId (Nat.zero_add k)

/-! ## Claim C5: top-k search and threshold filtering -/

theorem rag_query_eval (queryCall : Nat → Except String (List ChromaRow × Bool))
    (complete : String → Except String String) (n : Nat) (t : ℚ)
    (rows : List ChromaRow) (hasD : Bool) (hq : queryCall n = Except.ok (rows, hasD)) :
    rag_query queryCall complete n t
      = match complete (buildContext (mkSources rows hasD)) with
        | Except.error e => { answer := errAnswer e, sources := [] }
        | Except.ok ans => { answer := ans, sources := mkSources rows hasD } := by
  rw [rag_query, hq]

theorem rag_query_sources_cases (queryCall : Nat → Except String (List ChromaRow × Bool))
    (complete : String → Except String String) (n : Nat) (t : ℚ)
    (rows : List ChromaRow) (hasD : Bool) (hq : queryCall n = Except.ok (rows, hasD)) :
    (rag_query queryCall complete n t).sources = []
    ∨ (rag_query queryCall complete n t).sources = mkSources rows hasD := by
  rw [rag_query_eval queryCall complete n t rows hasD hq]
  cases complete (buildContext (mkSources rows hasD)) with
  | error e => exact Or.inl rfl
  | ok ans => exact Or.inr rfl

/-- Claim C5 counterexample: a retrieved source with similarity 0.1, below
the caller-supplied threshold 0.4, is still displayed by the search handler
— neither the index layer nor the caller filters by threshold. -/
theorem threshold_not_applied_counterexample :
    displaySources (rag_query exQueryCall exComplete 3 (4/10))
      = [{ content := "doc", url := "u", title := "t", similarity := 1/10 }]
    ∧ (1/10 : ℚ) < 4/10 := by
  refine ⟨rfl, by norm_num⟩

/-- Claim C5 (corrected): the search step returns at most `n_results`
sources, exactly the index's rows in index order (ascending distance as
delivered by ChromaDB), and applies no threshold filtering; but the caller
does not filter either — `rag_query` ignores its `threshold` parameter
entirely and the handler displays the first three sources unconditionally. -/
theorem rag_query_threshold_amended
    (queryCall : Nat → Except String (List ChromaRow × Bool))
    (complete : String → Except String String)
    (n : Nat) (t t2 : ℚ) (rows : List ChromaRow) (hasD : Bool)
    (hq : queryCall n = Except.ok (rows, hasD)) (hlen : rows.length ≤ n) :
    (rag_query queryCall complete n t).sources.length ≤ n
    ∧ rag_query queryCall complete n t = rag_query queryCall complete n t2
    ∧ ((rag_query queryCall complete n t).sources = []
        ∨ (rag_query queryCall complete n t).sources = mkSources rows hasD)
    ∧ displaySources (rag_query queryCall complete n t)
        = ((rag_query queryCall complete n t).sources).take 3 := by
  refine ⟨?_, rfl, rag_query_sources_cases queryCall complete n t rows hasD hq, rfl⟩
  rcases rag_query_sources_cases queryCall complete n t rows hasD hq with h | h <;> rw [h]
  · simp
  · simpa [mkSources] using hlen

theorem rag_query_threshold_amended_witness :
    exQueryCall 3 = Except.ok ([exRow], true)
    ∧ [exRow].length ≤ 3
    ∧ (rag_query exQueryCall exComplete 3 (4/10)).sources.length ≤ 3
    ∧ rag_query exQueryCall exComplete 3 (4/10) = rag_query exQueryCall exComplete 3 (7/10)
    ∧ ((rag_query exQueryCall exComplete 3 (4/10)).sources = []
        ∨ (rag_query exQueryCall exComplete 3 (4/10)).sources = mkSources [exRow] true)
    ∧ displaySources (rag_query exQueryCall exComplete 3 (4/10))
        = ((rag_query exQueryCall exComplete 3 (4/10)).sources).take 3 := by
  refine ⟨rfl, by decide, ?_⟩
  exact rag_query_threshold_amended exQueryCall exComplete 3 (4/10) (7/10) [exRow] true
    rfl (by decide)

/-! ## Claim C6: `rag_query` failure paths return an error answer and no
sources -/

theorem errAnswer_ne_empty (e : String) : errAnswer e ≠ "" := by
  intro h
  have h2 := congrArg String.length h
  rw [errAnswer, String.length_append] at h2
  have h3 :
      0 < ("Désolé, une erreur s\x27est produite lors du traitement de votre requête: " :
        String).length := by decide
  have h4 : ("" : String).length = 0 := rfl
  omega

/-- Claim C6 (confirmed): whenever the retrieval call or the generation call
inside `rag_query` fails, the function returns (never raises) a result whose
answer is the non-empty error explanation and whose sources are empty. -/
theorem rag_query_failure_returns_error_result
    (queryCall : Nat → Except String (List ChromaRow × Bool))
    (complete : String → Except String String) (n : Nat) (t : ℚ)
    (h : (∃ e, queryCall n = Except.error e)
      ∨ (∃ rows hasD, queryCall n = Except.ok (rows, hasD)
          ∧ ∃ e, complete (buildContext (mkSources rows hasD)) = Except.error e)) :
    (rag_query queryCall complete n t).answer ≠ ""
    ∧ (rag_query queryCall complete n t).sources = [] := by
  rcases h with ⟨e, he⟩ | ⟨rows, hasD, hok, e, he⟩
  · rw [rag_query, he]
    exact ⟨errAnswer_ne_empty e, by simp⟩
  · rw [rag_query, hok]
    simp only [he]
    exact ⟨errAnswer_ne_empty e, by simp⟩

theorem rag_query_failure_witness :
    ((∃ e, (fun _ : Nat => (Except.error "down" : Except String (List ChromaRow × Bool))) 3
        = Except.error e)
      ∨ (∃ rows hasD, (fun _ : Nat => (Except.error "down" : Except String (List ChromaRow × Bool))) 3
            = Except.ok (rows, hasD)
          ∧ ∃ e, (fun _ : String => (Except.ok "ans" : Except String String))
              (buildContext (mkSources rows hasD)) = Except.error e))
    ∧ (rag_query (fun _ => Except.error "down") (fun _ => Except.ok "ans") 3 0).answer ≠ ""
    ∧ (rag_query (fun _ => Except.error "down") (fun _ => Except.ok "ans") 3 0).sources = [] :=
  ⟨Or.inl ⟨"down", rfl⟩,
    rag_query_failure_returns_error_result (fun _ => Except.error "down")
      (fun _ => Except.ok "ans") 3 0 (Or.inl ⟨"down", rfl⟩)⟩

/-! ## Claim C8: discovery succeeds but every page fetch fails -/

theorem filterMap_map_none {α β : Type} (f : α → Option β)
    (hf : ∀ u, f u = Option.none) (l : List α) : (l.map f).filterMap id = [] := by
  induction l with
  | nil => rfl
  | cons a rest ih => simp [List.filterMap_cons, hf a, ih]

/-- Claim C8 (confirmed): if discovery reports success but every per-page
fetch fails, `scrape_all_pages` returns a result dictionary with
`total_pages = 0`, `total_chunks = 0` and an empty page list, rather than
raising or returning `None`. -/
theorem scrape_all_pages_all_fetches_fail (base : Str) (maxPages : Nat)
    (top : Option (Nat × ParseOutcome)) (subFetch : Str → Option PyVal)
    (links : Str → Option (List Str)) (fuel : Nat) (fetchPage : Str → Option PageData)
    (hdisc : (discoveryRun base maxPages top subFetch links fuel).1 = true)
    (hfail : ∀ u, fetchPage u = Option.none) :
    scrape_all_pages base maxPages top subFetch links fuel fetchPage =
      Option.some { domain := base, total_pages := 0, total_chunks := 0, pages := [] } := by
  rw [scrape_all_pages]
  simp only [hdisc]
  rw [if_neg (by simp)]
  rw [filterMap_map_none fetchPage hfail]
  rfl

theorem scrape_all_pages_all_fetches_fail_witness :
    (discoveryRun exBase 50 (Option.some (200, ParseOutcome.ok exUrlsetSingle)) exSub
        exNoLinks 0).1 = true
    ∧ (∀ u, (fun _ : Str => (Option.none : Option PageData)) u = Option.none)
    ∧ scrape_all_pages exBase 50 (Option.some (200, ParseOutcome.ok exUrlsetSingle)) exSub
        exNoLinks 0 (fun _ => Option.none) =
        Option.some { domain := exBase, total_pages := 0, total_chunks := 0, pages := [] } :=
  ⟨by decide, fun _ => rfl,
    scrape_all_pages_all_fetches_fail exBase 50
      (Option.some (200, ParseOutcome.ok exUrlsetSingle)) exSub exNoLinks 0
      (fun _ => Option.none) (by decide) (fun _ => rfl)⟩

/-! ## Whitespace-normalization lemmas shared by the `chunk_text` claims -/

theorem collapseAux_ws_space :
    ∀ (s : Str) (b : Bool), ∀ c ∈ collapseAux b s, isPySpace c = true → c = ' ' := by
  intro s
  induction s with
  | nil => intro b c hc; simp [collapseAux] at hc
  | cons a rest ih =>
    intro b c hc hsp
    by_cases ha : isPySpace a = true
    · cases b with
      | true =>
        rw [collapseAux, if_pos ha, if_pos rfl] at hc
        exact ih true c hc hsp
      | false =>
        rw [collapseAux, if_pos ha] at hc
        simp only [Bool.false_eq_true, if_false, List.mem_cons] at hc
        rcases hc with hc | hc
        · exact hc
        · exact ih true c hc hsp
    · rw [collapseAux, if_neg ha] at hc
      rcases List.mem_cons.mp hc with hc | hc
      · exact absurd (hc ▸ hsp) ha
      · exact ih false c hc hsp

theorem collapseWs_ws_space (s : Str) : ∀ c ∈ collapseWs s, isPySpace c = true → c = ' ' :=
  collapseAux_ws_space s false

theorem newline_not_mem_collapseWs (s : Str) : '\n' ∉ collapseWs s := by
  intro h
  have := collapseWs_ws_space s '\n' h (by decide)
  exact absurd this (by decide)

theorem mem_of_mem_dropWhileWs {a : Char} :
    ∀ l : Str, a ∈ l.dropWhile isPySpace → a ∈ l := by
  intro l
  induction l with
  | nil => intro h; simpa using h
  | cons c rest ih =>
    intro h
    by_cases hc : isPySpace c = true
    · rw [List.dropWhile_cons_of_pos hc] at h
      exact List.mem_cons_of_mem c (ih h)
    · rw [List.dropWhile_cons_of_neg (by simpa using hc)] at h
      exact h

theorem mem_of_mem_pstrip {a : Char} {s : Str} (h : a ∈ pstrip s) : a ∈ s := by
  rw [pstrip, List.rdropWhile] at h
  rw [List.mem_reverse] at h
  have h2 := mem_of_mem_dropWhileWs _ h
  rw [List.mem_reverse] at h2
  exact mem_of_mem_dropWhileWs _ h2

theorem newline_not_mem_normalizeWs (s : Str) : '\n' ∉ normalizeWs s := fun h =>
  newline_not_mem_collapseWs s (mem_of_mem_pstrip h)

theorem pySplitPP_no_sep :
    ∀ (s : Str) (acc : Str), '\n' ∉ s → pySplitPP acc s = [acc.reverse ++ s] := by
  intro s
  induction s with
  | nil => intro acc _; simp [pySplitPP]
  | cons c rest ih =>
    intro acc h
    have hc : ¬ c = '\n' := fun e => h (by rw [e]; exact List.mem_cons_self _ _)
    have hrest : '\n' ∉ rest := fun e => h (List.mem_cons_of_mem c e)
    rw [pySplitPP.eq_def]
    split
    · rename_i heq; cases heq
    · rename_i heq
      injection heq with h1 _
      exact absurd h1 hc
    · rename_i a1 a2 a3 c2 rest2 hno heq
      injection heq with h1 h2
      subst h1; subst h2
      rw [ih (c :: a1) hrest]
      simp

theorem pySplitParas_no_newline {s : Str} (h : '\n' ∉ s) : pySplitParas s = [s] := by
  rw [pySplitParas, pySplitPP_no_sep s [] h]
  rfl

/-! ## Claim C10: the paragraph split is always a single paragraph -/

/-- Claim C10 (confirmed): because `chunk_text` collapses every whitespace
run (including newlines) to single spaces before splitting on `'\n\n'`, the
paragraph split always returns exactly one paragraph, and `chunk_text`
coincides with the simplified chunker that treats the whole normalized text
as a single paragraph. -/
theorem chunk_text_single_paragraph (csz : Nat) (text : Str) :
    pySplitParas (normalizeWs text) = [normalizeWs text]
    ∧ chunk_text csz text = chunk_text_single csz text := by
  have h1 := pySplitParas_no_newline (newline_not_mem_normalizeWs text)
  refine ⟨h1, ?_⟩
  by_cases ht : text = []
  · rw [chunk_text, chunk_text_single, if_pos ht, if_pos ht]
  · rw [chunk_text, chunk_text_single, if_neg ht, if_neg ht, h1]

/-! ## Claim C9: `chunk_text` on empty and whitespace-only inputs -/

/-- Claim C9 counterexample: `chunk_text` maps the empty string to `[]`,
but maps the three-space string to a one-element list containing the empty
passage, not to the empty sequence the claim states. -/
theorem chunk_text_whitespace_counterexample :
    chunk_text 500 ("".data) = []
    ∧ chunk_text 500 ("   ".data) = [[]]
    ∧ chunk_text 500 ("   ".data) ≠ [] := by
  refine ⟨by decide, by decide, by decide⟩

theorem collapseAux_true_all_ws {s : Str} (h : ∀ c ∈ s, isPySpace c = true) :
    collapseAux true s = [] := by
  induction s with
  | nil => rfl
  | cons a rest ih =>
    rw [collapseAux, if_pos (h a (List.mem_cons_self _ _)), if_pos rfl]
    exact ih fun c hc => h c (List.mem_cons_of_mem a hc)

theorem normalizeWs_all_ws {s : Str} (h : ∀ c ∈ s, isPySpace c = true) :
    normalizeWs s = [] := by
  cases s with
  | nil => rfl
  | cons a rest =>
    rw [normalizeWs, collapseWs, collapseAux, if_pos (h a (List.mem_cons_self _ _))]
    simp only [Bool.false_eq_true, if_false]
    rw [collapseAux_true_all_ws fun c hc => h c (List.mem_cons_of_mem a hc)]
    rfl

/-- Claim C9 (corrected): `chunk_text` returns `[]` on the empty string, but
on a nonempty whitespace-only string it returns the one-element list whose
sole passage is the empty string. -/
theorem chunk_text_empty_and_whitespace (csz : Nat) (s : Str)
    (h1 : s ≠ []) (h2 : ∀ c ∈ s, isPySpace c = true) :
    chunk_text csz [] = [] ∧ chunk_text csz s = [[]] := by
  refine ⟨rfl, ?_⟩
  rw [chunk_text, if_neg h1, normalizeWs_all_ws h2]
  show finalizeChunks (paraLoop csz [[]] [] []) = [[]]
  rw [paraLoop]
  simp only [List.length_nil, Nat.not_lt_zero, if_false, List.nil_append,
    List.length_cons, Nat.zero_add, Nat.zero_le, if_true, Nat.le_refl]
  rw [paraLoop]
  rfl

/-! ## Invariants of the sitemap append loops (claims C1, C2, C7) -/

theorem isPrefixOf_self : ∀ l : Str, l.isPrefixOf l = true := by
  intro l
  induction l with
  | nil => rfl
  | cons a as ih => simp [List.isPrefixOf, ih]

theorem addUrlEntries_nodup_pre (base : Str) (M : Nat) :
    ∀ (urls : List PyVal) (pages : List Str), pages.Nodup →
      (∀ p ∈ pages, base.isPrefixOf p = true) →
      (addUrlEntries base M urls pages).1.Nodup
      ∧ ∀ p ∈ (addUrlEntries base M urls pages).1, base.isPrefixOf p = true := by
  intro urls
  induction urls with
  | nil => intro pages hnd hpre; exact ⟨hnd, hpre⟩
  | cons entry rest ih =>
    intro pages hnd hpre
    cases hsub : pySubscr entry ("loc".data) with
    | error e => simp only [addUrlEntries, hsub]; exact ⟨hnd, hpre⟩
    | ok locv =>
      cases locv with
      | str loc =>
        by_cases hc : base.isPrefixOf loc = true ∧ loc ∉ pages
        · have hdisj : pages.Disjoint [loc] := by
            intro a ha hb
            rw [List.mem_singleton] at hb
            exact hc.2 (hb ▸ ha)
          have hnd2 : (pages ++ [loc]).Nodup :=
            List.nodup_append.mpr ⟨hnd, List.nodup_singleton loc, hdisj⟩
          have hpre2 : ∀ p ∈ pages ++ [loc], base.isPrefixOf p = true := by
            intro p hp
            rcases List.mem_append.mp hp with hp | hp
            · exact hpre p hp
            · rw [List.mem_singleton.mp hp]; exact hc.1
          by_cases hcap : M ≤ (pages ++ [loc]).length
          · simp only [addUrlEntries, hsub, if_pos hc, if_pos hcap]
            exact ⟨hnd2, hpre2⟩
          · simp only [addUrlEntries, hsub, if_pos hc, if_neg hcap]
            exact ih (pages ++ [loc]) hnd2 hpre2
        · simp only [addUrlEntries, hsub, if_neg hc]
          exact ih pages hnd hpre
      | dict kvs => simp only [addUrlEntries, hsub]; exact ⟨hnd, hpre⟩
      | list xs => simp only [addUrlEntries, hsub]; exact ⟨hnd, hpre⟩
      | null => simp only [addUrlEntries, hsub]; exact ⟨hnd, hpre⟩

theorem addUrlEntries_len (base : Str) (M : Nat) :
    ∀ (urls : List PyVal) (pages : List Str),
      (addUrlEntries base M urls pages).1.length ≤ pages.length + 1
      ∨ (addUrlEntries base M urls pages).1.length ≤ M := by
  intro urls
  induction urls with
  | nil => intro pages; exact Or.inl (Nat.le_succ _)
  | cons entry rest ih =>
    intro pages
    cases hsub : pySubscr entry ("loc".data) with
    | error e => simp only [addUrlEntries, hsub]; exact Or.inl (Nat.le_succ _)
    | ok locv =>
      cases locv with
      | str loc =>
        by_cases hc : base.isPrefixOf loc = true ∧ loc ∉ pages
        · by_cases hcap : M ≤ (pages ++ [loc]).length
          · simp only [addUrlEntries, hsub, if_pos hc, if_pos hcap]
            exact Or.inl (by simp)
          · simp only [addUrlEntries, hsub, if_pos hc, if_neg hcap]
            rcases ih (pages ++ [loc]) with h | h
            · right
              rw [List.length_append, List.length_singleton] at h hcap
              omega
            · exact Or.inr h
        · simp only [addUrlEntries, hsub, if_neg hc]
          exact ih pages
      | dict kvs => simp only [addUrlEntries, hsub]; exact Or.inl (Nat.le_succ _)
      | list xs => simp only [addUrlEntries, hsub]; exact Or.inl (Nat.le_succ _)
      | null => simp only [addUrlEntries, hsub]; exact Or.inl (Nat.le_succ _)

theorem processSubSitemap_nodup_pre (base : Str) (M : Nat) (pages : List Str) (sub : PyVal)
    (hnd : pages.Nodup) (hpre : ∀ p ∈ pages, base.isPrefixOf p = true) :
    (processSubSitemap base M pages sub).Nodup
    ∧ ∀ p ∈ processSubSitemap base M pages sub, base.isPrefixOf p = true := by
  rw [processSubSitemap]
  split
  · exact ⟨hnd, hpre⟩
  · exact ⟨hnd, hpre⟩
  · split
    · exact ⟨hnd, hpre⟩
    · split
      · exact ⟨hnd, hpre⟩
      · exact ⟨hnd, hpre⟩
      · split
        · exact ⟨hnd, hpre⟩
        · exact addUrlEntries_nodup_pre base M _ pages hnd hpre

theorem processSubSitemap_len (base : Str) (M : Nat) (pages : List Str) (sub : PyVal) :
    (processSubSitemap base M pages sub).length ≤ pages.length + 1
    ∨ (processSubSitemap base M pages sub).length ≤ M := by
  rw [processSubSitemap]
  split
  · exact Or.inl (Nat.le_succ _)
  · exact Or.inl (Nat.le_succ _)
  · split
    · exact Or.inl (Nat.le_succ _)
    · split
      · exact Or.inl (Nat.le_succ _)
      · exact Or.inl (Nat.le_succ _)
      · split
        · exact Or.inl (Nat.le_succ _)
        · exact addUrlEntries_len base M _ pages

theorem processEntries_nodup_pre (base : Str) (M : Nat) (subFetch : Str → Option PyVal) :
    ∀ (entries : List PyVal) (pages : List Str) (ps : List Str), pages.Nodup →
      (∀ p ∈ pages, base.isPrefixOf p = true) →
      processEntries base M subFetch entries pages = DiscoveryOutcome.sitemapPages ps →
      ps.Nodup ∧ ∀ p ∈ ps, base.isPrefixOf p = true := by
  intro entries
  induction entries with
  | nil =>
    intro pages ps hnd hpre heq
    rw [processEntries] at heq
    injection heq with h
    subst h
    exact ⟨hnd, hpre⟩
  | cons e rest ih =>
    intro pages ps hnd hpre heq
    rw [processEntries] at heq
    split at heq
    · cases heq
    · split at heq
      · split at heq
        · exact ih pages ps hnd hpre heq
        · rename_i loc sub hf
          have h5 := processSubSitemap_nodup_pre base M pages sub hnd hpre
          exact ih _ ps h5.1 h5.2 heq
      · exact ih pages ps hnd hpre heq

theorem processEntries_len (base : Str) (M : Nat) (subFetch : Str → Option PyVal) :
    ∀ (entries : List PyVal) (pages : List Str) (ps : List Str) (c : Nat),
      pages.length ≤ M + c →
      processEntries base M subFetch entries pages = DiscoveryOutcome.sitemapPages ps →
      ps.length ≤ M + c + entries.length := by
  intro entries
  induction entries with
  | nil =>
    intro pages ps c hlen heq
    rw [processEntries] at heq
    injection heq with h
    subst h
    simpa using hlen
  | cons e rest ih =>
    intro pages ps c hlen heq
    rw [processEntries] at heq
    split at heq
    · cases heq
    · split at heq
      · split at heq
        · have h6 := ih pages ps c hlen heq
          simp only [List.length_cons]
          omega
        · rename_i loc sub hf
          have h5 := processSubSitemap_len base M pages sub
          have h7 : (processSubSitemap base M pages sub).length ≤ M + (c + 1) := by
            rcases h5 with h5 | h5 <;> omega
          have h6 := ih _ ps (c + 1) h7 heq
          simp only [List.length_cons]
          omega
      · have h6 := ih pages ps c hlen heq
        simp only [List.length_cons]
        omega

theorem addLinks_inv (base : Str) (M : Nat) :
    ∀ (ls toVisit pages : List Str),
      pages.Nodup → (∀ q ∈ pages, base.isPrefixOf q = true) → pages.length < M →
      (addLinks base M ls pages toVisit pages).1 = (addLinks base M ls pages toVisit pages).2.2
      ∧ (addLinks base M ls pages toVisit pages).2.2.Nodup
      ∧ (∀ q ∈ (addLinks base M ls pages toVisit pages).2.2, base.isPrefixOf q = true)
      ∧ (addLinks base M ls pages toVisit pages).2.2.length ≤ M := by
  intro ls
  induction ls with
  | nil => intro t p hnd hpre hlen; exact ⟨rfl, hnd, hpre, Nat.le_of_lt hlen⟩
  | cons l ls2 ih =>
    intro t p hnd hpre hlen
    by_cases hc : l ∉ p ∧ base.isPrefixOf l = true
    · have hdisj : p.Disjoint [l] := by
        intro a ha hb
        rw [List.mem_singleton] at hb
        exact hc.1 (hb ▸ ha)
      have hnd2 : (p ++ [l]).Nodup :=
        List.nodup_append.mpr ⟨hnd, List.nodup_singleton l, hdisj⟩
      have hpre2 : ∀ q ∈ p ++ [l], base.isPrefixOf q = true := by
        intro q hq
        rcases List.mem_append.mp hq with hq | hq
        · exact hpre q hq
        · rw [List.mem_singleton.mp hq]; exact hc.2
      by_cases hcap : M ≤ (p ++ [l]).length
      · simp only [addLinks, if_pos hc, if_pos hcap]
        refine ⟨trivial, hnd2, hpre2, ?_⟩
        rw [List.length_append, List.length_singleton]
        omega
      · simp only [addLinks, if_pos hc, if_neg hcap]
        refine ih (t ++ [l]) (p ++ [l]) hnd2 hpre2 ?_
        rw [List.length_append, List.length_singleton] at hcap ⊢
        omega
    · simp only [addLinks, if_neg hc]
      exact ih t p hnd hpre hlen

theorem crawlLoop_inv (base : Str) (M : Nat) (links : Str → Option (List Str)) :
    ∀ (fuel : Nat) (toVisit pages : List Str),
      pages.Nodup → (∀ p ∈ pages, base.isPrefixOf p = true) → pages.length ≤ M →
      (crawlLoop base M links fuel pages toVisit pages).Nodup
      ∧ (∀ p ∈ crawlLoop base M links fuel pages toVisit pages, base.isPrefixOf p = true)
      ∧ (crawlLoop base M links fuel pages toVisit pages).length ≤ M := by
  intro fuel
  induction fuel with
  | zero => intro t p hnd hpre hlen; exact ⟨hnd, hpre, hlen⟩
  | succ fuel ih =>
    intro t p hnd hpre hlen
    cases t with
    | nil => exact ⟨hnd, hpre, hlen⟩
    | cons current rest =>
      by_cases hlt : p.length < M
      · cases hl : links current with
        | none =>
          simp only [crawlLoop, if_pos hlt, hl]
          exact ih rest p hnd hpre hlen
        | some ls =>
          simp only [crawlLoop, if_pos hlt, hl]
          have h5 := addLinks_inv base M ls rest p hnd hpre hlt
          rw [h5.1]
          exact ih _ _ h5.2.1 h5.2.2.1 h5.2.2.2
      · simp only [crawlLoop, if_neg hlt]
        exact ⟨hnd, hpre, hlen⟩

/-- Claim C1 counterexample: a sitemap-index discovery run with
`max_pages = 1` over two sub-sitemaps collects 2 pages — the inner cap
`break` only leaves the per-sub-sitemap loop, so each later sub-sitemap can
add one more page beyond the cap. -/
theorem fetch_sitemap_cap_counterexample :
    fetch_sitemap exBase 1 (Option.some (200, ParseOutcome.ok exMultiIdxTwo)) exSub
      = DiscoveryOutcome.sitemapPages [("http://s/a".data), ("http://s/b".data)]
    ∧ ¬ ([("http://s/a".data), ("http://s/b".data)] : List Str).length ≤ 1 := by
  exact ⟨by decide, by decide⟩

/-- Claim C1 (corrected): every discovery run keeps `self.pages` free of
duplicates and of URLs outside `base_url`; its cardinality is bounded by
`max_pages` in the crawl path, but in the sitemap path only by `max_pages`
plus the number of sub-sitemap entries (each sub-sitemap processed after the
cap is reached can append one more page). -/
theorem discovery_invariants (base : Str) (maxPages : Nat) (hM : 1 ≤ maxPages) :
    (∀ top subFetch ps,
      fetch_sitemap base maxPages top subFetch = DiscoveryOutcome.sitemapPages ps →
        ps.Nodup ∧ (∀ p ∈ ps, base.isPrefixOf p = true)
        ∧ ps.length ≤ maxPages + numSubSitemaps top)
    ∧ (∀ links fuel,
        (discover_pages_via_crawling base maxPages links fuel).Nodup
        ∧ (∀ p ∈ discover_pages_via_crawling base maxPages links fuel,
            base.isPrefixOf p = true)
        ∧ (discover_pages_via_crawling base maxPages links fuel).length ≤ maxPages) := by
  constructor
  · intro top subFetch ps heq
    rw [fetch_sitemap.eq_def] at heq
    split at heq
    · cases heq
    · rename_i status po
      by_cases hs : status = 200
      · rw [if_pos hs] at heq
        split at heq
        · cases heq
        · rename_i sitemap
          split at heq
          · cases heq
          · -- sitemapindex branch
            rename_i h1
            split at heq
            · cases heq
            · rename_i idx h2
              split at heq
              · cases heq
              · rename_i entriesV h3
                split at heq
                · cases heq
                · rename_i entries h4
                  have hnp := processEntries_nodup_pre base maxPages subFetch entries [] ps
                    (List.nodup_nil) (by simp) heq
                  have hlen := processEntries_len base maxPages subFetch entries [] ps 0
                    (by simp) heq
                  refine ⟨hnp.1, hnp.2, ?_⟩
                  have hnum : numSubSitemaps (Option.some (status, ParseOutcome.ok sitemap))
                      = entries.length := by
                    simp only [numSubSitemaps, if_pos hs, h1, h2, h3, h4]
                  rw [hnum]
                  omega
          · -- urlset branch
            rename_i h1
            split at heq
            · cases heq
            · cases heq
            · split at heq
              · cases heq
              · rename_i us h2
                split at heq
                · cases heq
                · cases heq
                · split at heq
                  · cases heq
                  · rename_i urlsv h4
                    rw [fetchUrlsetResult] at heq
                    split at heq
                    · cases heq
                    · rename_i pages0 haue
                      injection heq with h5
                      subst h5
                      have h6 : pages0 =
                          (addUrlEntries base maxPages
                            (if pyIsList urlsv = true then pyAsList urlsv else [urlsv]) []).1 := by
                        rw [haue]
                      have hnp := addUrlEntries_nodup_pre base maxPages
                        (if pyIsList urlsv = true then pyAsList urlsv else [urlsv]) []
                        List.nodup_nil (by simp)
                      have hlen := addUrlEntries_len base maxPages
                        (if pyIsList urlsv = true then pyAsList urlsv else [urlsv]) []
                      refine ⟨h6 ▸ hnp.1, h6 ▸ hnp.2, ?_⟩
                      have hnum : numSubSitemaps (Option.some (status, ParseOutcome.ok sitemap))
                          = 0 := by
                        simp only [numSubSitemaps, if_pos hs, h1]
                      rw [hnum, h6]
                      have h0 : ([] : List Str).length = 0 := rfl
                      rcases hlen with h | h <;> omega
      · rw [if_neg hs] at heq
        cases heq
  · intro links fuel
    refine crawlLoop_inv base maxPages links fuel [base] [base]
      (List.nodup_singleton base) ?_ (by simpa using hM)
    intro p hp
    rw [List.mem_singleton.mp hp]
    exact isPrefixOf_self base

theorem discovery_invariants_witness :
    1 ≤ 50
    ∧ fetch_sitemap exBase 50 (Option.some (200, ParseOutcome.ok exUrlsetSingle)) exSub
        = DiscoveryOutcome.sitemapPages [("http://s/x".data)]
    ∧ ([("http://s/x".data)] : List Str).Nodup
    ∧ (∀ p ∈ ([("http://s/x".data)] : List Str), exBase.isPrefixOf p = true)
    ∧ ([("http://s/x".data)] : List Str).length ≤
        50 + numSubSitemaps (Option.some (200, ParseOutcome.ok exUrlsetSingle)) := by
  refine ⟨by decide, by decide, ?_⟩
  have h := (discovery_invariants exBase 50 (by decide)).1
    (Option.some (200, ParseOutcome.ok exUrlsetSingle)) exSub
    [("http://s/x".data)] (by decide)
  exact ⟨h.1, h.2.1, h.2.2⟩

/-! ## Claim C2: single-child versus multi-child sitemap structures -/

/-- Claim C2 counterexample: a sitemap index with one child `<sitemap>`
(parsed as a mapping) makes the entry loop iterate over the mapping's keys,
so `sitemap_entry['loc']` raises a TypeError and discovery falls back to
crawling, while the same URL set written as a list of children is merged
normally — the outcomes differ. -/
theorem sitemap_single_child_counterexample :
    fetch_sitemap exBase 50 (Option.some (200, ParseOutcome.ok exSingleIdx)) exSub
      = DiscoveryOutcome.crawl
    ∧ fetch_sitemap exBase 50 (Option.some (200, ParseOutcome.ok exMultiIdxSame)) exSub
      = DiscoveryOutcome.sitemapPages [("http://s/a".data)]
    ∧ DiscoveryOutcome.crawl ≠ DiscoveryOutcome.sitemapPages [("http://s/a".data)] := by
  exact ⟨by decide, by decide, by decide⟩

/-- Claim C2 (corrected): at the `urlset` level a single `<url>` mapping is
wrapped into a one-element list and processed exactly like a list (both in a
sub-sitemap and in the top-level sitemap), but at the `sitemapindex` level a
single child `<sitemap>` mapping raises a TypeError and the run falls back
to crawl discovery instead of producing the merged URL set. -/
theorem sitemap_single_vs_list (base : Str) (maxPages : Nat) (subFetch : Str → Option PyVal) :
    (∀ (pages : List Str) (u : PyVal), pyIsList u = false →
      processSubSitemap base maxPages pages
          (PyVal.dict [("urlset".data, PyVal.dict [("url".data, u)])])
        = processSubSitemap base maxPages pages
            (PyVal.dict [("urlset".data, PyVal.dict [("url".data, PyVal.list [u])])]))
    ∧ (∀ u : PyVal, pyIsList u = false →
        fetch_sitemap base maxPages (Option.some (200, ParseOutcome.ok
            (PyVal.dict [("urlset".data, PyVal.dict [("url".data, u)])]))) subFetch
          = fetch_sitemap base maxPages (Option.some (200, ParseOutcome.ok
              (PyVal.dict [("urlset".data, PyVal.dict [("url".data, PyVal.list [u])])]))) subFetch)
    ∧ (∀ (k : Str) (v : PyVal) (rest : List (Str × PyVal)),
        fetch_sitemap base maxPages (Option.some (200, ParseOutcome.ok
            (PyVal.dict [("sitemapindex".data,
              PyVal.dict [("sitemap".data, PyVal.dict ((k, v) :: rest))])]))) subFetch
          = DiscoveryOutcome.crawl) := by
  refine ⟨?_, ?_, ?_⟩
  · intro pages u hu
    have h2 : processSubSitemap base maxPages pages
        (PyVal.dict [("urlset".data, PyVal.dict [("url".data, u)])])
        = (addUrlEntries base maxPages
            (if pyIsList u = true then pyAsList u else [u]) pages).1 := rfl
    have h3 : processSubSitemap base maxPages pages
        (PyVal.dict [("urlset".data, PyVal.dict [("url".data, PyVal.list [u])])])
        = (addUrlEntries base maxPages [u] pages).1 := rfl
    rw [h2, h3, hu]
    rfl
  · intro u hu
    have h2 : fetch_sitemap base maxPages (Option.some (200, ParseOutcome.ok
        (PyVal.dict [("urlset".data, PyVal.dict [("url".data, u)])]))) subFetch
        = fetchUrlsetResult base maxPages (if pyIsList u = true then pyAsList u else [u]) := rfl
    have h3 : fetch_sitemap base maxPages (Option.some (200, ParseOutcome.ok
        (PyVal.dict [("urlset".data, PyVal.dict [("url".data, PyVal.list [u])])]))) subFetch
        = fetchUrlsetResult base maxPages [u] := rfl
    rw [h2, h3, hu]
    rfl
  · intro k v rest
    have h2 : fetch_sitemap base maxPages (Option.some (200, ParseOutcome.ok
        (PyVal.dict [("sitemapindex".data,
          PyVal.dict [("sitemap".data, PyVal.dict ((k, v) :: rest))])]))) subFetch
        = processEntries base maxPages subFetch
            (((k, v) :: rest).map fun kv => PyVal.str kv.1) [] := rfl
    rw [h2]
    rfl

theorem sitemap_single_vs_list_witness :
    pyIsList (PyVal.dict [("loc".data, PyVal.str ("http://s/a".data))]) = false
    ∧ processSubSitemap exBase 50 []
        (PyVal.dict [("urlset".data, PyVal.dict [("url".data,
          PyVal.dict [("loc".data, PyVal.str ("http://s/a".data))])])])
      = processSubSitemap exBase 50 []
          (PyVal.dict [("urlset".data, PyVal.dict [("url".data,
            PyVal.list [PyVal.dict [("loc".data, PyVal.str ("http://s/a".data))]])])])
    ∧ fetch_sitemap exBase 50 (Option.some (200, ParseOutcome.ok
        (PyVal.dict [("urlset".data, PyVal.dict [("url".data,
          PyVal.dict [("loc".data, PyVal.str ("http://s/a".data))])])]))) exSub
      = fetch_sitemap exBase 50 (Option.some (200, ParseOutcome.ok
          (PyVal.dict [("urlset".data, PyVal.dict [("url".data,
            PyVal.list [PyVal.dict [("loc".data, PyVal.str ("http://s/a".data))]])])]))) exSub
    ∧ fetch_sitemap exBase 50 (Option.some (200, ParseOutcome.ok
        (PyVal.dict [("sitemapindex".data, PyVal.dict [("sitemap".data,
          PyVal.dict [("loc".data, PyVal.str ("http://s/m1".data))])])]))) exSub
      = DiscoveryOutcome.crawl :=
  ⟨by decide,
    (sitemap_single_vs_list exBase 50 exSub).1 []
      (PyVal.dict [("loc".data, PyVal.str ("http://s/a".data))]) (by decide),
    (sitemap_single_vs_list exBase 50 exSub).2.1
      (PyVal.dict [("loc".data, PyVal.str ("http://s/a".data))]) (by decide),
    (sitemap_single_vs_list exBase 50 exSub).2.2 ("loc".data)
      (PyVal.str ("http://s/m1".data)) []⟩

/-! ## Claim C7: recovery behaviour of `fetch_sitemap` -/

/-- Claim C7 counterexample: a 200-status response whose well-formed XML has
neither `sitemapindex` nor `urlset` makes `fetch_sitemap` reach the implicit
`return None` — discovery does not fall back to crawling and the whole
scrape returns `None`, even when every page would have been fetchable. -/
theorem fetch_sitemap_unexpected_structure_counterexample :
    fetch_sitemap exBase 50 (Option.some (200, ParseOutcome.ok exNoKeys)) exSub
      = DiscoveryOutcome.noResult
    ∧ DiscoveryOutcome.noResult ≠ DiscoveryOutcome.crawl
    ∧ scrape_all_pages exBase 50 (Option.some (200, ParseOutcome.ok exNoKeys)) exSub exNoLinks 5
        (fun _ => Option.some (PageData.mk [] [] [] [] 0)) = Option.none := by
  exact ⟨by decide, by decide, by decide⟩

/-- Claim C7 (corrected): a raised request error, a non-200 status, or a
parse exception all fall back to crawl-based discovery, but a 200-status
document that parses without the expected `sitemapindex`/`urlset` entries
returns `None` (no pages, no crawl fallback). -/
theorem fetch_sitemap_fallback (base : Str) (maxPages : Nat) (subFetch : Str → Option PyVal) :
    fetch_sitemap base maxPages Option.none subFetch = DiscoveryOutcome.crawl
    ∧ (∀ (status : Nat) (po : ParseOutcome), status ≠ 200 →
        fetch_sitemap base maxPages (Option.some (status, po)) subFetch = DiscoveryOutcome.crawl)
    ∧ fetch_sitemap base maxPages (Option.some (200, ParseOutcome.err)) subFetch
        = DiscoveryOutcome.crawl
    ∧ (∀ kvs : List (Str × PyVal),
        pyLookup kvs ("sitemapindex".data) = Option.none →
        (pyLookup kvs ("urlset".data) = Option.none
          ∨ ∃ kvs2, pyLookup kvs ("urlset".data) = Option.some (PyVal.dict kvs2)
              ∧ pyLookup kvs2 ("url".data) = Option.none) →
        fetch_sitemap base maxPages (Option.some (200, ParseOutcome.ok (PyVal.dict kvs))) subFetch
          = DiscoveryOutcome.noResult) := by
  refine ⟨rfl, ?_, rfl, ?_⟩
  · intro status po hs
    rw [fetch_sitemap.eq_def]
    simp only []
    rw [if_neg hs]
  · intro kvs h1 h2
    rw [fetch_sitemap.eq_def]
    simp only [pyContains, h1, Option.isSome_none, if_pos rfl]
    rcases h2 with h2 | ⟨kvs2, h2, h3⟩
    · rw [h2]
      rfl
    · rw [h2]
      simp only [pySubscr, h2, Option.isSome_some, pyContains, h3, Option.isSome_none]
      rfl

theorem fetch_sitemap_fallback_witness :
    (7 : Nat) ≠ 200
    ∧ fetch_sitemap exBase 50 (Option.some (7, ParseOutcome.err)) exSub = DiscoveryOutcome.crawl
    ∧ pyLookup [("html".data, PyVal.null)] ("sitemapindex".data) = Option.none
    ∧ pyLookup [("html".data, PyVal.null)] ("urlset".data) = Option.none
    ∧ fetch_sitemap exBase 50 (Option.some (200, ParseOutcome.ok
        (PyVal.dict [("html".data, PyVal.null)]))) exSub = DiscoveryOutcome.noResult :=
  ⟨by decide,
    (fetch_sitemap_fallback exBase 50 exSub).2.1 7 ParseOutcome.err (by decide),
    rfl, rfl,
    (fetch_sitemap_fallback exBase 50 exSub).2.2.2 [("html".data, PyVal.null)]
      rfl (Or.inl rfl)⟩

theorem chunk_text_empty_and_whitespace_witness :
    ("   ".data ≠ ([] : Str))
    ∧ (∀ c ∈ ("   ".data), isPySpace c = true)
    ∧ chunk_text 500 [] = [] ∧ chunk_text 500 ("   ".data) = [[]] :=
  ⟨by decide, by decide,
    chunk_text_empty_and_whitespace 500 ("   ".data) (by decide) (by decide)⟩

/-! ## List and joining lemmas for claim C3 -/

theorem glueSp_nil_left (b : Str) : glueSp [] b = b := rfl

theorem glueSp_nil_right (a : Str) : glueSp a [] = a := by
  by_cases h : a = []
  · rw [h]; rfl
  · rw [glueSp, if_neg h, if_pos rfl]

theorem glueSp_of_ne (a b : Str) (ha : a ≠ []) (hb : b ≠ []) :
    glueSp a b = a ++ ' ' :: b := by
  rw [glueSp, if_neg ha, if_neg hb]

theorem glueSp_assoc (a b c : Str) : glueSp (glueSp a b) c = glueSp a (glueSp b c) := by
  by_cases ha : a = []
  · rw [ha, glueSp_nil_left, glueSp_nil_left]
  · by_cases hb : b = []
    · rw [hb, glueSp_nil_right, glueSp_nil_left]
    · by_cases hc : c = []
      · rw [hc, glueSp_nil_right, glueSp_nil_right]
      · rw [glueSp_of_ne a b ha hb, glueSp_of_ne b c hb hc,
          glueSp_of_ne _ c (by simp) hc, glueSp_of_ne a _ ha (by simp)]
        simp

theorem joinSp_cons_cons (a b : Str) (t : List Str) :
    joinSp (a :: b :: t) = a ++ ' ' :: joinSp (b :: t) := rfl

theorem joinSp_append_singleton (l : List Str) (a : Str) (hl : l ≠ []) :
    joinSp (l ++ [a]) = joinSp l ++ ' ' :: a := by
  induction l with
  | nil => exact absurd rfl hl
  | cons x rest ih =>
    cases rest with
    | nil => rfl
    | cons y t =>
      simp only [List.cons_append]
      simp only [joinSp_cons_cons]
      have ih2 := ih (by simp)
      simp only [List.cons_append] at ih2
      rw [ih2]
      simp

theorem joinSp_ne_nil (l : List Str) (hne : ∀ p ∈ l, p ≠ []) (hl : l ≠ []) :
    joinSp l ≠ [] := by
  cases l with
  | nil => exact absurd rfl hl
  | cons x rest =>
    cases rest with
    | nil => exact hne x (List.mem_cons_self _ _)
    | cons y t =>
      rw [joinSp_cons_cons]
      have := hne x (List.mem_cons_self _ _)
      intro h
      exact this (List.append_eq_nil.mp h).1

theorem joinSp_snoc_glue (l : List Str) (a : Str) (ha : a ≠ [])
    (hl : l = [] ∨ joinSp l ≠ []) : joinSp (l ++ [a]) = glueSp (joinSp l) a := by
  rcases hl with hl | hl
  · rw [hl]; rfl
  · have hlne : l ≠ [] := by rintro rfl; exact hl rfl
    rw [joinSp_append_singleton l a hlne, glueSp_of_ne _ _ hl ha]

theorem joinSp_cons_glue (a : Str) (l : List Str) (ha : a ≠ [])
    (hl : l = [] ∨ joinSp l ≠ []) : joinSp (a :: l) = glueSp a (joinSp l) := by
  cases l with
  | nil =>
    show a = glueSp a []
    rw [glueSp_nil_right]
  | cons y t =>
    rcases hl with hl | hl
    · cases hl
    · rw [joinSp_cons_cons, glueSp_of_ne _ _ ha hl]

theorem head?_append_left {α : Type} (a b : List α) (ha : a ≠ []) :
    (a ++ b).head? = a.head? := by
  cases a with
  | nil => exact absurd rfl ha
  | cons x t => rfl

theorem getLast?_append_right {α : Type} (a b : List α) (hb : b ≠ []) :
    (a ++ b).getLast? = b.getLast? := by
  rw [← List.head?_reverse, ← List.head?_reverse, List.reverse_append]
  exact head?_append_left _ _ (by simpa using hb)

theorem head?_dropWhileWs (l : Str) :
    ∀ a, (l.dropWhile isPySpace).head? = Option.some a → isPySpace a = false := by
  induction l with
  | nil => intro a h; cases h
  | cons c rest ih =>
    intro a h
    by_cases hc : isPySpace c = true
    · rw [List.dropWhile_cons_of_pos hc] at h
      exact ih a h
    · rw [List.dropWhile_cons_of_neg (by simpa using hc)] at h
      injection h with h2
      rw [← h2]
      simpa using hc

theorem dropWhileWs_of_head (w : Str) (hw : ∀ a, w.head? = Option.some a → isPySpace a = false) :
    w.dropWhile isPySpace = w := by
  cases w with
  | nil => rfl
  | cons c t =>
    have := hw c rfl
    rw [List.dropWhile_cons_of_neg (by simp [this])]

theorem pstrip_wf (w : Str) (hw : WfPiece w) : pstrip w = w := by
  rw [pstrip, dropWhileWs_of_head w hw.2.1, List.rdropWhile,
    dropWhileWs_of_head _ ?_, List.reverse_reverse]
  intro a h
  rw [List.head?_reverse] at h
  exact hw.2.2 a h

theorem pstrip_space_cons (w : Str) : pstrip (' ' :: w) = pstrip w := by
  rw [pstrip, pstrip, List.dropWhile_cons_of_pos (by decide)]

theorem WfPiece_glue (w s : Str) (hw : WfPiece w) (hs : WfPiece s) :
    WfPiece (w ++ ' ' :: s) := by
  refine ⟨by simp [hw.1], ?_, ?_⟩
  · intro a h
    rw [head?_append_left _ _ hw.1] at h
    exact hw.2.1 a h
  · intro a h
    rw [getLast?_append_right _ _ (by simp)] at h
    have h2 : (' ' :: s).getLast? = s.getLast? := by
      have := getLast?_append_right [' '] s hs.1
      simpa using this
    rw [h2] at h
    exact hs.2.2 a h

theorem punct_not_space (h : Char) (hp : prevIsPunct (Option.some h) = true) :
    isPySpace h = false := by
  rw [prevIsPunct] at hp
  rcases Bool.or_eq_true_iff.mp hp with hp | hp
  · rcases Bool.or_eq_true_iff.mp hp with hp | hp
    · rw [decide_eq_true_iff.mp hp]; decide
    · rw [decide_eq_true_iff.mp hp]; decide
  · rw [decide_eq_true_iff.mp hp]; decide

/-! ## Normal-form properties of `normalizeWs` output (claim C3) -/

theorem head_collapseAux_true (s : Str) :
    ∀ a, (collapseAux true s).head? = Option.some a → isPySpace a = false := by
  induction s with
  | nil => intro a h; cases h
  | cons c rest ih =>
    intro a h
    by_cases hc : isPySpace c = true
    · rw [collapseAux, if_pos hc, if_pos rfl] at h
      exact ih a h
    · rw [collapseAux, if_neg hc] at h
      injection h with h2
      rw [← h2]
      simpa using hc

theorem spacesAreSingle_tail (c : Char) (l : Str) (h : spacesAreSingle (c :: l) = true) :
    spacesAreSingle l = true := by
  rw [spacesAreSingle, Bool.and_eq_true] at h
  exact h.2

theorem spacesAreSingle_cons_of (c : Char) (l : Str)
    (h1 : ∀ d, l.head? = Option.some d → (isPySpace c && isPySpace d) = false)
    (h2 : spacesAreSingle l = true) : spacesAreSingle (c :: l) = true := by
  rw [spacesAreSingle, Bool.and_eq_true]
  refine ⟨?_, h2⟩
  cases hl : l.head? with
  | none => rfl
  | some d =>
    have h3 := h1 d hl
    simp [h3]

theorem spacesAreSingle_pair (c : Char) (l : Str) (d : Char)
    (h : spacesAreSingle (c :: l) = true) (hd : l.head? = Option.some d) :
    (isPySpace c && isPySpace d) = false := by
  rw [spacesAreSingle, Bool.and_eq_true] at h
  have h1 := h.1
  rw [hd] at h1
  have h2 : (!(isPySpace c && isPySpace d)) = true := h1
  cases h3 : (isPySpace c && isPySpace d) with
  | false => rfl
  | true => rw [h3] at h2; exact absurd h2 (by decide)

theorem spacesAreSingle_collapseAux : ∀ (s : Str) (b : Bool),
    spacesAreSingle (collapseAux b s) = true := by
  intro s
  induction s with
  | nil => intro b; rfl
  | cons c rest ih =>
    intro b
    by_cases hc : isPySpace c = true
    · cases b with
      | true =>
        rw [collapseAux, if_pos hc, if_pos rfl]
        exact ih true
      | false =>
        rw [collapseAux, if_pos hc]
        simp only [Bool.false_eq_true, if_false]
        refine spacesAreSingle_cons_of _ _ ?_ (ih true)
        intro d hd
        rw [Bool.and_eq_false_iff]
        exact Or.inr (head_collapseAux_true rest d hd)
    · rw [collapseAux, if_neg hc]
      refine spacesAreSingle_cons_of _ _ ?_ (ih false)
      intro d _
      rw [Bool.and_eq_false_iff]
      exact Or.inl (by simpa using hc)

theorem spacesAreSingle_dropWhileWs (l : Str) (h : spacesAreSingle l = true) :
    spacesAreSingle (l.dropWhile isPySpace) = true := by
  induction l with
  | nil => exact h
  | cons c rest ih =>
    by_cases hc : isPySpace c = true
    · rw [List.dropWhile_cons_of_pos hc]
      exact ih (spacesAreSingle_tail c rest h)
    · rw [List.dropWhile_cons_of_neg (by simpa using hc)]
      exact h

theorem spacesAreSingle_append_left (l1 l2 : Str)
    (h : spacesAreSingle (l1 ++ l2) = true) : spacesAreSingle l1 = true := by
  induction l1 with
  | nil => rfl
  | cons c rest ih =>
    rw [List.cons_append] at h
    refine spacesAreSingle_cons_of _ _ ?_ (ih (spacesAreSingle_tail _ _ h))
    intro d hd
    refine spacesAreSingle_pair c (rest ++ l2) d h ?_
    rw [head?_append_left _ _ ?_, hd]
    intro he
    rw [he] at hd
    cases hd

theorem rdropWhile_eq_append (p : Char → Bool) (l : Str) :
    ∃ t, l = List.rdropWhile p l ++ t := by
  obtain ⟨t, ht⟩ := List.dropWhile_suffix (l := l.reverse) p
  refine ⟨t.reverse, ?_⟩
  have h2 : l.reverse.reverse = (t ++ l.reverse.dropWhile p).reverse := by rw [ht]
  rw [List.reverse_reverse, List.reverse_append] at h2
  exact h2

theorem spacesAreSingle_pstrip (s : Str) (h : spacesAreSingle s = true) :
    spacesAreSingle (pstrip s) = true := by
  rw [pstrip]
  obtain ⟨t, ht⟩ := rdropWhile_eq_append isPySpace (s.dropWhile isPySpace)
  have h2 := spacesAreSingle_dropWhileWs s h
  rw [ht] at h2
  exact spacesAreSingle_append_left _ _ h2

theorem spacesAreSingle_normalizeWs (s : Str) :
    spacesAreSingle (normalizeWs s) = true :=
  spacesAreSingle_pstrip _ (spacesAreSingle_collapseAux s false)

theorem normalizeWs_ws_space (s : Str) :
    ∀ c ∈ normalizeWs s, isPySpace c = true → c = ' ' := fun c hc =>
  collapseWs_ws_space s c (mem_of_mem_pstrip hc)

theorem head_pstrip_not_space (x : Str) :
    ∀ a, (pstrip x).head? = Option.some a → isPySpace a = false := by
  intro a h
  rw [pstrip] at h
  obtain ⟨t, ht⟩ := rdropWhile_eq_append isPySpace (x.dropWhile isPySpace)
  have hne : List.rdropWhile isPySpace (x.dropWhile isPySpace) ≠ [] := by
    intro he
    rw [he] at h
    cases h
  refine head?_dropWhileWs x a ?_
  rw [ht, head?_append_left _ _ hne]
  exact h

theorem getLast_pstrip_not_space (x : Str) :
    ∀ a, (pstrip x).getLast? = Option.some a → isPySpace a = false := by
  intro a h
  rw [pstrip, List.rdropWhile, List.getLast?_reverse] at h
  exact head?_dropWhileWs _ a h

theorem WfPiece_normalizeWs (s : Str) (h : normalizeWs s ≠ []) :
    WfPiece (normalizeWs s) :=
  ⟨h, head_pstrip_not_space _, getLast_pstrip_not_space _⟩

theorem collapseAux_true_eq_false (rest : Str)
    (h : ∀ d, rest.head? = Option.some d → isPySpace d = false) :
    collapseAux true rest = collapseAux false rest := by
  cases rest with
  | nil => rfl
  | cons d t =>
    have hd := h d rfl
    rw [collapseAux, collapseAux, if_neg (by simp [hd]), if_neg (by simp [hd])]

theorem collapseAux_id (N : Str) (hb : ∀ c ∈ N, isPySpace c = true → c = ' ')
    (hss : spacesAreSingle N = true) : collapseAux false N = N := by
  induction N with
  | nil => rfl
  | cons c rest ih =>
    have hh2 : ∀ e ∈ rest, isPySpace e = true → e = ' ' := fun e he hsp =>
      hb e (List.mem_cons_of_mem c he) hsp
    by_cases hc : isPySpace c = true
    · have hcs : c = ' ' := hb c (List.mem_cons_self _ _) hc
      have hh1 : ∀ d, rest.head? = Option.some d → isPySpace d = false := by
        intro d hd
        have h2 := spacesAreSingle_pair c rest d hss hd
        cases h3 : isPySpace d with
        | false => rfl
        | true =>
          rw [hc, h3] at h2
          exact absurd h2 (by decide)
      rw [collapseAux, if_pos hc]
      simp only [Bool.false_eq_true, if_false]
      rw [collapseAux_true_eq_false rest hh1, ih hh2 (spacesAreSingle_tail _ _ hss), hcs]
    · rw [collapseAux, if_neg hc, ih hh2 (spacesAreSingle_tail _ _ hss)]

theorem normalizeWs_of_nf (N : Str) (hb : ∀ c ∈ N, isPySpace c = true → c = ' ')
    (hss : spacesAreSingle N = true) (hw : WfPiece N) : normalizeWs N = N := by
  rw [normalizeWs, collapseWs, collapseAux_id N hb hss, pstrip_wf N hw]

/-! ## Specification of the sentence splitter on normalized text (claim C3) -/

theorem sentAux_ne_nil : ∀ (l : Str) (b : Bool) (p : Option Char) (a : Str),
    sentAux b p a l ≠ [] := by
  intro l
  induction l with
  | nil => intro b p a; simp [sentAux]
  | cons c rest ih =>
    intro b p a
    cases b with
    | true =>
      rw [sentAux]
      by_cases hc : isPySpace c = true
      · rw [if_pos hc]; exact ih true Option.none a
      · rw [if_neg hc]; exact ih false _ _
    | false =>
      rw [sentAux]
      by_cases hcp : isPySpace c = true ∧ prevIsPunct p = true
      · rw [if_pos hcp]; simp
      · rw [if_neg hcp]; exact ih false _ _

theorem sentAux_spec_nil (prev : Option Char) (acc : Str) (hne : acc ≠ [])
    (hget : ∀ a, acc.getLast? = Option.some a → isPySpace a = false)
    (hhead : ∀ a, acc.head? = Option.some a → isPySpace a = false) :
    joinSp (sentAux false prev acc []) = acc.reverse ++ []
    ∧ ∀ p ∈ sentAux false prev acc [], WfPiece p := by
  constructor
  · show joinSp [acc.reverse] = acc.reverse ++ []
    simp [joinSp]
  · intro p hp
    rw [show sentAux false prev acc [] = [acc.reverse] from rfl, List.mem_singleton] at hp
    subst hp
    refine ⟨by simpa using hne, ?_, ?_⟩
    · intro a h
      rw [List.head?_reverse] at h
      exact hget a h
    · intro a h
      rw [List.getLast?_reverse] at h
      exact hhead a h

theorem sentAux_spec : ∀ (n : Nat) (cs : Str) (prev : Option Char) (acc : Str),
    cs.length ≤ n →
    spacesAreSingle cs = true →
    (∀ c ∈ cs, isPySpace c = true → c = ' ') →
    (∀ a, cs.getLast? = Option.some a → isPySpace a = false) →
    (acc = [] → prev = Option.none ∧ cs ≠ []
      ∧ ∀ a, cs.head? = Option.some a → isPySpace a = false) →
    (acc ≠ [] → (∃ h2 t2, acc = h2 :: t2 ∧ prev = Option.some h2)
      ∧ ∀ a, acc.getLast? = Option.some a → isPySpace a = false) →
    (cs = [] → acc ≠ [] ∧ ∀ a, acc.head? = Option.some a → isPySpace a = false) →
    joinSp (sentAux false prev acc cs) = acc.reverse ++ cs
    ∧ ∀ p ∈ sentAux false prev acc cs, WfPiece p := by
  intro n
  induction n with
  | zero =>
    intro cs prev acc hn hss hbl hlast hacc0 haccH hcs0
    have hcs : cs = [] := List.length_eq_zero.mp (Nat.le_zero.mp hn)
    subst hcs
    exact sentAux_spec_nil prev acc (hcs0 rfl).1 (fun a ha => (haccH (hcs0 rfl).1).2 a ha)
      (hcs0 rfl).2
  | succ n ih =>
    intro cs prev acc hn hss hbl hlast hacc0 haccH hcs0
    cases cs with
    | nil =>
      exact sentAux_spec_nil prev acc (hcs0 rfl).1 (fun a ha => (haccH (hcs0 rfl).1).2 a ha)
        (hcs0 rfl).2
    | cons c rest =>
      by_cases hcp : isPySpace c = true ∧ prevIsPunct prev = true
      · -- a separator match: emit the accumulated piece
        have haccne : acc ≠ [] := by
          intro h0
          rcases hacc0 h0 with ⟨hpnone, _, _⟩
          rw [hpnone] at hcp
          exact absurd hcp.2 (by decide)
        obtain ⟨⟨h2, t2, hacc_eq, hprev⟩, hacclast⟩ := haccH haccne
        have hcsp : c = ' ' := hbl c (List.mem_cons_self _ _) hcp.1
        have hrest_ne : rest ≠ [] := by
          intro h0
          subst h0
          have h3 := hlast c (by rw [List.getLast?_singleton])
          rw [hcp.1] at h3
          cases h3
        obtain ⟨d, rest2, hrd⟩ := List.exists_cons_of_ne_nil hrest_ne
        subst hrd
        have hd : isPySpace d = false := by
          have h4 := spacesAreSingle_pair c (d :: rest2) d hss rfl
          cases h3 : isPySpace d with
          | false => rfl
          | true => rw [hcp.1, h3] at h4; cases h4
        have hstep : sentAux false prev acc (c :: d :: rest2)
            = acc.reverse :: sentAux false (Option.some d) [d] rest2 := by
          rw [sentAux, if_pos hcp, sentAux, if_neg (by simp [hd])]
        have hlen2 : rest2.length ≤ n := by
          simp only [List.length_cons] at hn
          omega
        have hss2 : spacesAreSingle rest2 = true :=
          spacesAreSingle_tail _ _ (spacesAreSingle_tail _ _ hss)
        have hbl2 : ∀ e ∈ rest2, isPySpace e = true → e = ' ' := fun e he =>
          hbl e (List.mem_cons_of_mem c (List.mem_cons_of_mem d he))
        have hlast2 : ∀ a, rest2.getLast? = Option.some a → isPySpace a = false := by
          intro a ha
          refine hlast a ?_
          cases rest2 with
          | nil => cases ha
          | cons e t =>
            rw [List.getLast?_cons_cons, List.getLast?_cons_cons]
            exact ha
        have hacc02 : ([d] : Str) = [] →
            Option.some d = Option.none ∧ rest2 ≠ []
              ∧ ∀ a, rest2.head? = Option.some a → isPySpace a = false :=
          fun h0 => absurd h0 (by simp)
        have haccH2 : ([d] : Str) ≠ [] →
            (∃ h3 t3, ([d] : Str) = h3 :: t3 ∧ Option.some d = Option.some h3)
            ∧ ∀ a, ([d] : Str).getLast? = Option.some a → isPySpace a = false := by
          intro _
          refine ⟨⟨d, [], rfl, rfl⟩, ?_⟩
          intro a ha
          rw [List.getLast?_singleton] at ha
          injection ha with ha2
          rw [← ha2]
          exact hd
        have hcs02 : rest2 = [] → ([d] : Str) ≠ []
            ∧ ∀ a, ([d] : Str).head? = Option.some a → isPySpace a = false := by
          intro _
          refine ⟨by simp, ?_⟩
          intro a ha
          injection ha with ha2
          rw [← ha2]
          exact hd
        obtain ⟨hjoin2, hwf2⟩ := ih rest2 (Option.some d) [d] hlen2 hss2 hbl2 hlast2
          hacc02 haccH2 hcs02
        constructor
        · rw [hstep]
          have hSne := sentAux_ne_nil rest2 false (Option.some d) [d]
          obtain ⟨s0, S2, hS⟩ := List.exists_cons_of_ne_nil hSne
          rw [hS, joinSp_cons_cons, ← hS, hjoin2, hcsp]
          simp
        · intro p hp
          rw [hstep, List.mem_cons] at hp
          rcases hp with hp | hp
          · subst hp
            refine ⟨by simpa using haccne, ?_, ?_⟩
            · intro a ha
              rw [List.head?_reverse] at ha
              exact hacclast a ha
            · intro a ha
              rw [List.getLast?_reverse, hacc_eq] at ha
              injection ha with ha2
              rw [← ha2]
              refine punct_not_space h2 ?_
              rw [hprev] at hcp
              exact hcp.2
          · exact hwf2 p hp
      · -- no separator: push the character onto the accumulator
        have hstep : sentAux false prev acc (c :: rest)
            = sentAux false (Option.some c) (c :: acc) rest := by
          rw [sentAux, if_neg hcp]
        have hlen2 : rest.length ≤ n := by
          simp only [List.length_cons] at hn
          omega
        have hss2 : spacesAreSingle rest = true := spacesAreSingle_tail _ _ hss
        have hbl2 : ∀ e ∈ rest, isPySpace e = true → e = ' ' := fun e he =>
          hbl e (List.mem_cons_of_mem c he)
        have hlast2 : ∀ a, rest.getLast? = Option.some a → isPySpace a = false := by
          intro a ha
          refine hlast a ?_
          cases rest with
          | nil => cases ha
          | cons e t =>
            rw [List.getLast?_cons_cons]
            exact ha
        have hacc02 : (c :: acc) = [] →
            Option.some c = Option.none ∧ rest ≠ []
              ∧ ∀ a, rest.head? = Option.some a → isPySpace a = false :=
          fun h0 => absurd h0 (by simp)
        have haccH2 : (c :: acc) ≠ [] →
            (∃ h3 t3, (c :: acc) = h3 :: t3 ∧ Option.some c = Option.some h3)
            ∧ ∀ a, (c :: acc).getLast? = Option.some a → isPySpace a = false := by
          intro _
          refine ⟨⟨c, acc, rfl, rfl⟩, ?_⟩
          intro a ha
          cases hac : acc with
          | nil =>
            rw [hac, List.getLast?_singleton] at ha
            injection ha with ha2
            rw [← ha2]
            exact (hacc0 hac).2.2 c rfl
          | cons x t =>
            rw [hac, List.getLast?_cons_cons] at ha
            refine (haccH (by rw [hac]; simp)).2 a ?_
            rw [hac]
            exact ha
        have hcs02 : rest = [] → (c :: acc) ≠ []
            ∧ ∀ a, (c :: acc).head? = Option.some a → isPySpace a = false := by
          intro h0
          refine ⟨by simp, ?_⟩
          intro a ha
          injection ha with ha2
          rw [← ha2]
          refine hlast c ?_
          rw [h0, List.getLast?_singleton]
        obtain ⟨hjoin2, hwf2⟩ := ih rest (Option.some c) (c :: acc) hlen2 hss2 hbl2 hlast2
          hacc02 haccH2 hcs02
        constructor
        · rw [hstep, hjoin2]
          simp
        · intro p hp
          rw [hstep] at hp
          exact hwf2 p hp

theorem sentSplit_spec (N : Str) (hN : N ≠ [])
    (hss : spacesAreSingle N = true)
    (hbl : ∀ c ∈ N, isPySpace c = true → c = ' ')
    (hhead : ∀ a, N.head? = Option.some a → isPySpace a = false)
    (hlast : ∀ a, N.getLast? = Option.some a → isPySpace a = false) :
    joinSp (sentSplit N) = N ∧ ∀ p ∈ sentSplit N, WfPiece p := by
  have h := sentAux_spec N.length N Option.none [] (Nat.le_refl _) hss hbl hlast
    (fun _ => ⟨rfl, hN, hhead⟩) (fun h0 => absurd rfl h0) (fun h0 => absurd h0 hN)
  rw [sentSplit]
  exact ⟨by rw [h.1]; rfl, h.2⟩

/-! ## The sentence packing loop (claim C3) -/

theorem CurInv_pstrip (csz : Nat) (S : List Str) (cur : Str)
    (h : CurInv csz S cur) (hne : cur ≠ []) :
    WfPiece (pstrip cur) ∧ ((pstrip cur).length ≤ csz + 1 ∨ pstrip cur ∈ S) := by
  rcases h with h | ⟨w, hw, hcw, hl⟩
  · exact absurd h hne
  · rcases hcw with hcw | hcw
    · rw [hcw, pstrip_wf w hw]
      refine ⟨hw, ?_⟩
      rcases hl with hl | hl
      · rw [hcw] at hl
        exact Or.inl hl
      · exact Or.inr hl
    · rw [hcw, pstrip_space_cons, pstrip_wf w hw]
      refine ⟨hw, ?_⟩
      rcases hl with hl | hl
      · rw [hcw, List.length_cons] at hl
        exact Or.inl (by omega)
      · exact Or.inr hl

theorem finalize_ChOK (csz : Nat) (S : List Str) (hcsz : 1 ≤ csz) (cur : Str)
    (chunks : List Str) (hcur : CurInv csz S cur) (hch : ChOK csz S chunks) :
    ChOK csz S (finalizeChunks (cur, chunks)) := by
  by_cases hne : cur = []
  · rw [finalizeChunks, if_neg (fun h => h hne)]
    exact hch
  · rw [finalizeChunks, if_pos hne]
    obtain ⟨hwp, hlen⟩ := CurInv_pstrip csz S cur hcur hne
    intro ch hmem
    rcases List.mem_append.mp hmem with h | h
    · exact hch ch h
    · rw [List.mem_singleton.mp h]
      refine ⟨hwp.1, ?_⟩
      rcases hlen with h2 | h2
      · exact Or.inl (by omega)
      · exact Or.inr h2

theorem finalize_join_pstrip (csz : Nat) (S : List Str) (cur : Str) (chunks : List Str)
    (hcur : CurInv csz S cur) (hch : ∀ ch ∈ chunks, ch ≠ ([] : Str)) :
    joinSp (finalizeChunks (cur, chunks)) = glueSp (joinSp chunks) (pstrip cur) := by
  by_cases hne : cur = []
  · subst hne
    rw [finalizeChunks, if_neg (by simp)]
    rw [show pstrip ([] : Str) = [] from rfl, glueSp_nil_right]
  · rw [finalizeChunks, if_pos hne]
    obtain ⟨hwp, _⟩ := CurInv_pstrip csz S cur hcur hne
    refine joinSp_snoc_glue chunks (pstrip cur) hwp.1 ?_
    by_cases hc : chunks = []
    · exact Or.inl hc
    · exact Or.inr (joinSp_ne_nil chunks hch hc)

theorem pstrip_grow (csz : Nat) (S : List Str) (cur s : Str)
    (hcur : CurInv csz S cur) (hs : WfPiece s) :
    pstrip (cur ++ ' ' :: s) = glueSp (pstrip cur) s := by
  rcases hcur with h | ⟨w, hw, hcw, _⟩
  · subst h
    rw [List.nil_append, pstrip_space_cons, pstrip_wf s hs]
    rfl
  · rcases hcw with hcw | hcw
    · rw [hcw]
      calc pstrip (w ++ ' ' :: s) = w ++ ' ' :: s := pstrip_wf _ (WfPiece_glue w s hw hs)
        _ = glueSp w s := (glueSp_of_ne w s hw.1 hs.1).symm
        _ = glueSp (pstrip w) s := by rw [pstrip_wf w hw]
    · rw [hcw]
      calc pstrip ((' ' :: w) ++ ' ' :: s) = pstrip (w ++ ' ' :: s) := pstrip_space_cons _
        _ = w ++ ' ' :: s := pstrip_wf _ (WfPiece_glue w s hw hs)
        _ = glueSp w s := (glueSp_of_ne w s hw.1 hs.1).symm
        _ = glueSp (pstrip (' ' :: w)) s := by rw [pstrip_space_cons, pstrip_wf w hw]

theorem CurInv_grow (csz : Nat) (S : List Str) (cur s : Str)
    (hcur : CurInv csz S cur) (hs : WfPiece s)
    (hgrow : cur.length + s.length ≤ csz) : CurInv csz S (cur ++ ' ' :: s) := by
  rcases hcur with h | ⟨w, hw, hcw, _⟩
  · subst h
    refine Or.inr ⟨s, hs, Or.inr (List.nil_append _), Or.inl ?_⟩
    simp only [List.nil_append, List.length_cons, List.length_nil] at hgrow ⊢
    omega
  · refine Or.inr ⟨w ++ ' ' :: s, WfPiece_glue w s hw hs, ?_, Or.inl ?_⟩
    · rcases hcw with hcw | hcw
      · exact Or.inl (by rw [hcw])
      · refine Or.inr ?_
        rw [hcw]
        rfl
    · rw [List.length_append, List.length_cons]
      omega

theorem sentLoop_spec (csz : Nat) (S : List Str) (hcsz : 1 ≤ csz) :
    ∀ (sents : List Str) (cur : Str) (chunks : List Str),
      (∀ s ∈ sents, WfPiece s) → (∀ s ∈ sents, s ∈ S) →
      CurInv csz S cur → ChOK csz S chunks →
      joinSp (finalizeChunks (sentLoop csz sents cur chunks))
        = glueSp (joinSp (finalizeChunks (cur, chunks))) (joinSp sents)
      ∧ ChOK csz S (finalizeChunks (sentLoop csz sents cur chunks)) := by
  intro sents
  induction sents with
  | nil =>
    intro cur chunks hwf hmem hcur hch
    refine ⟨?_, finalize_ChOK csz S hcsz cur chunks hcur hch⟩
    rw [sentLoop]
    rw [show joinSp ([] : List Str) = [] from rfl, glueSp_nil_right]
  | cons s rest ih =>
    intro cur chunks hwf hmem hcur hch
    have hws : WfPiece s := hwf s (List.mem_cons_self _ _)
    have hmems : s ∈ S := hmem s (List.mem_cons_self _ _)
    have hwfr : ∀ x ∈ rest, WfPiece x := fun x hx => hwf x (List.mem_cons_of_mem s hx)
    have hmemr : ∀ x ∈ rest, x ∈ S := fun x hx => hmem x (List.mem_cons_of_mem s hx)
    have hchne : ∀ ch ∈ chunks, ch ≠ ([] : Str) := fun ch h => (hch ch h).1
    have hjrest : joinSp (s :: rest) = glueSp s (joinSp rest) := by
      refine joinSp_cons_glue s rest hws.1 ?_
      by_cases hr : rest = []
      · exact Or.inl hr
      · exact Or.inr (joinSp_ne_nil rest (fun p hp => (hwfr p hp).1) hr)
    by_cases hgrow : cur.length + s.length ≤ csz
    · -- the sentence fits: grow current_chunk
      have hstep : sentLoop csz (s :: rest) cur chunks
          = sentLoop csz rest (cur ++ ' ' :: s) chunks := by
        rw [sentLoop, if_pos hgrow]
      have hcur2 := CurInv_grow csz S cur s hcur hws hgrow
      obtain ⟨hj2, hok2⟩ := ih (cur ++ ' ' :: s) chunks hwfr hmemr hcur2 hch
      rw [hstep]
      refine ⟨?_, hok2⟩
      rw [hj2, finalize_join_pstrip csz S _ chunks hcur2 hchne,
        finalize_join_pstrip csz S cur chunks hcur hchne,
        pstrip_grow csz S cur s hcur hws, hjrest,
        ← glueSp_assoc (joinSp chunks) (pstrip cur) s, glueSp_assoc]
    · by_cases hne : cur = []
      · -- current empty and sentence does not fit: start over with the sentence
        have hstep : sentLoop csz (s :: rest) cur chunks
            = sentLoop csz rest s chunks := by
          rw [sentLoop, if_neg hgrow, if_neg (fun h => h hne)]
        have hcur2 : CurInv csz S s := Or.inr ⟨s, hws, Or.inl rfl, Or.inr hmems⟩
        obtain ⟨hj2, hok2⟩ := ih s chunks hwfr hmemr hcur2 hch
        rw [hstep]
        refine ⟨?_, hok2⟩
        subst hne
        rw [hj2, finalize_join_pstrip csz S s chunks hcur2 hchne,
          pstrip_wf s hws, hjrest]
        rw [finalizeChunks, if_neg (by simp), glueSp_assoc]
      · -- flush the current chunk, then start over with the sentence
        have hstep : sentLoop csz (s :: rest) cur chunks
            = sentLoop csz rest s (chunks ++ [pstrip cur]) := by
          rw [sentLoop, if_neg hgrow, if_pos hne]
        have hcur2 : CurInv csz S s := Or.inr ⟨s, hws, Or.inl rfl, Or.inr hmems⟩
        have hch2 : ChOK csz S (chunks ++ [pstrip cur]) := by
          have h3 := finalize_ChOK csz S hcsz cur chunks hcur hch
          rw [finalizeChunks, if_pos hne] at h3
          exact h3
        obtain ⟨hj2, hok2⟩ := ih s (chunks ++ [pstrip cur]) hwfr hmemr hcur2 hch2
        rw [hstep]
        refine ⟨?_, hok2⟩
        obtain ⟨hwp, _⟩ := CurInv_pstrip csz S cur hcur hne
        have hjch2 : joinSp (chunks ++ [pstrip cur])
            = glueSp (joinSp chunks) (pstrip cur) := by
          refine joinSp_snoc_glue chunks (pstrip cur) hwp.1 ?_
          by_cases hc : chunks = []
          · exact Or.inl hc
          · exact Or.inr (joinSp_ne_nil chunks hchne hc)
        rw [hj2, finalize_join_pstrip csz S s _ hcur2 ?_, pstrip_wf s hws, hjch2,
          finalize_join_pstrip csz S cur chunks hcur hchne, hjrest, glueSp_assoc]
        intro ch h3
        exact (hch2 ch h3).1

/-! ## Claim C3: the chunker's concatenation, non-emptiness and size
properties -/

/-- Claim C3 counterexample: on a whitespace-only input `chunk_text` returns
a single empty passage, violating the claim that no returned passage is
empty. -/
theorem chunk_text_empty_passage_counterexample :
    chunk_text 500 ("   ".data) = [[]] ∧ ([] : Str) ∈ chunk_text 500 ("   ".data) := by
  exact ⟨by decide, by decide⟩

/-- Claim C3 (corrected): when the input contains at least one
non-whitespace character (and `chunk_size ≥ 1`), the passages of
`chunk_text`, joined with single spaces and re-collapsed, reproduce the
whitespace-normalized input exactly; no passage is empty; and every passage
is within `2 × chunk_size` unless it is a single sentence of the normalized
text (or the whole normalized text) that alone exceeds the bound.  (For
whitespace-only input the passage list is `[""]`, so the non-emptiness
clause of the original claim fails there.) -/
theorem chunk_text_amended (csz : Nat) (text : Str) (h1 : 1 ≤ csz)
    (h2 : normalizeWs text ≠ []) :
    normalizeWs (joinSp (chunk_text csz text)) = normalizeWs text
    ∧ (∀ c ∈ chunk_text csz text, c ≠ [])
    ∧ ∀ c ∈ chunk_text csz text,
        c.length ≤ 2 * csz ∨ c ∈ sentSplit (normalizeWs text) ∨ c = normalizeWs text := by
  have htext : text ≠ [] := by
    intro h0
    rw [h0] at h2
    exact h2 rfl
  have hpar : pySplitParas (normalizeWs text) = [normalizeWs text] :=
    pySplitParas_no_newline (newline_not_mem_normalizeWs text)
  have hct : chunk_text csz text
      = finalizeChunks (paraLoop csz [normalizeWs text] [] []) := by
    rw [chunk_text, if_neg htext, hpar]
  have hwN : WfPiece (normalizeWs text) := WfPiece_normalizeWs text h2
  have hssN : spacesAreSingle (normalizeWs text) = true := spacesAreSingle_normalizeWs text
  have hblN : ∀ c ∈ normalizeWs text, isPySpace c = true → c = ' ' := normalizeWs_ws_space text
  have hidem : normalizeWs (normalizeWs text) = normalizeWs text :=
    normalizeWs_of_nf _ hblN hssN hwN
  by_cases hbig : 2 * csz < (normalizeWs text).length
  · -- long paragraph: the sentence loop runs
    have hpl : paraLoop csz [normalizeWs text] [] []
        = sentLoop csz (sentSplit (normalizeWs text)) [] [] := by
      rw [paraLoop, if_pos hbig, paraLoop]
    obtain ⟨hjoinS, hwfS⟩ := sentSplit_spec (normalizeWs text) h2 hssN hblN hwN.2.1 hwN.2.2
    obtain ⟨hj, hok⟩ := sentLoop_spec csz (sentSplit (normalizeWs text)) h1
      (sentSplit (normalizeWs text)) [] [] hwfS (fun s hs => hs) (Or.inl rfl)
      (fun ch h => absurd h (List.not_mem_nil ch))
    rw [hct, hpl]
    refine ⟨?_, ?_, ?_⟩
    · rw [hj]
      rw [show finalizeChunks (([] : Str), ([] : List Str)) = [] from rfl]
      rw [show joinSp ([] : List Str) = [] from rfl, glueSp_nil_left, hjoinS, hidem]
    · intro c hc
      exact (hok c hc).1
    · intro c hc
      rcases (hok c hc).2 with h3 | h3
      · exact Or.inl h3
      · exact Or.inr (Or.inl h3)
  · -- the whole normalized text is packed as one paragraph
    by_cases hfit : ([] : Str).length + (normalizeWs text).length ≤ csz
    · have hpl : paraLoop csz [normalizeWs text] [] []
          = (([] : Str) ++ ' ' :: normalizeWs text, ([] : List Str)) := by
        rw [paraLoop, if_neg hbig, if_pos hfit, paraLoop]
      have hfin : finalizeChunks
          ((([] : Str) ++ ' ' :: normalizeWs text), ([] : List Str))
          = [normalizeWs text] := by
        rw [show (([] : Str) ++ ' ' :: normalizeWs text) = ' ' :: normalizeWs text from rfl]
        rw [finalizeChunks, if_pos (by simp), pstrip_space_cons, pstrip_wf _ hwN]
        rfl
      rw [hct, hpl, hfin]
      refine ⟨?_, ?_, ?_⟩
      · rw [show joinSp [normalizeWs text] = normalizeWs text from rfl, hidem]
      · intro c hc
        rw [List.mem_singleton.mp hc]
        exact hwN.1
      · intro c hc
        rw [List.mem_singleton.mp hc]
        exact Or.inr (Or.inr rfl)
    · have hpl : paraLoop csz [normalizeWs text] [] []
          = (normalizeWs text, ([] : List Str)) := by
        rw [paraLoop, if_neg hbig, if_neg hfit, if_neg (by simp), paraLoop]
      have hfin : finalizeChunks ((normalizeWs text), ([] : List Str))
          = [normalizeWs text] := by
        rw [finalizeChunks, if_pos h2, pstrip_wf _ hwN]
        rfl
      rw [hct, hpl, hfin]
      refine ⟨?_, ?_, ?_⟩
      · rw [show joinSp [normalizeWs text] = normalizeWs text from rfl, hidem]
      · intro c hc
        rw [List.mem_singleton.mp hc]
        exact hwN.1
      · intro c hc
        rw [List.mem_singleton.mp hc]
        exact Or.inr (Or.inr rfl)

theorem chunk_text_amended_witness :
    1 ≤ 5
    ∧ normalizeWs ("Ab. Cd.".data) ≠ []
    ∧ (normalizeWs (joinSp (chunk_text 5 ("Ab. Cd.".data))) = normalizeWs ("Ab. Cd.".data)
      ∧ (∀ c ∈ chunk_text 5 ("Ab. Cd.".data), c ≠ [])
      ∧ ∀ c ∈ chunk_text 5 ("Ab. Cd.".data),
          c.length ≤ 2 * 5 ∨ c ∈ sentSplit (normalizeWs ("Ab. Cd.".data))
            ∨ c = normalizeWs ("Ab. Cd.".data)) :=
  ⟨by decide, by decide, chunk_text_amended 5 ("Ab. Cd.".data) (by decide) (by decide)⟩


end ARW
